import Mathlib

/-! CompileX backend: the execution engine of `backend/main.go`.

A shallow embedding of `CodeExecutor.Execute`, `compile`, `run`,
`extractJavaClassName` and `executeHandler`.  Everything the Go code obtains
from its environment (the clock, the result of file-system calls, what an
external command prints and how it ends, which side of the `select` wins) is
supplied by a `World`; the Go code itself is translated statement by
statement.  Text is handled as `List Char` inside the library functions of
package `strings` and as `String` at the interfaces.
-/

namespace CompileX

/-! ## Package `strings` -/

/-- White space as `unicode.IsSpace` defines it: the Latin-1 spaces and the
code points with the Unicode White_Space property. -/
def isSpace (c : Char) : Bool :=
  c = '\t' || c = '\n' || c.val = 0x0B || c.val = 0x0C || c = '\r' || c = ' ' ||
  c.val = 0x85 || c.val = 0xA0 || c.val = 0x1680 ||
  (0x2000 ≤ c.val && c.val ≤ 0x200A) ||
  c.val = 0x2028 || c.val = 0x2029 || c.val = 0x202F || c.val = 0x205F || c.val = 0x3000

/-- The call `strings.Split(s, sep)` for a one-character separator: the pieces
of `s` between the separators, always at least one piece. -/
def splitOn (sep : Char) : List Char → List (List Char)
  | [] => [[]]
  | c :: cs =>
    if c = sep then [] :: splitOn sep cs
    else
      match splitOn sep cs with
      | [] => [[c]]
      | h :: t => (c :: h) :: t

/-- The function `strings.TrimSpace`: white space removed at both ends. -/
def TrimSpace (s : List Char) : List Char :=
  ((s.dropWhile isSpace).reverse.dropWhile isSpace).reverse

/-- The function `strings.HasPrefix`. -/
def HasPrefix (s pre : List Char) : Bool := pre.isPrefixOf s

/-- The function `strings.HasSuffix`. -/
def HasSuffix (s suf : List Char) : Bool := suf.reverse.isPrefixOf s.reverse

/-- The function `strings.TrimSuffix`: `s` without the trailing `suf`, or `s`
itself when it does not end in `suf`. -/
def TrimSuffix (s suf : List Char) : List Char :=
  if HasSuffix s suf then s.take (s.length - suf.length) else s

/-- The function `strings.Fields`: the maximal runs of characters that are
not white space, in order.  A character that is not white space closes a
field when white space or the end of the text follows it, and otherwise
joins the field that starts right after it. -/
def Fields : List Char → List (List Char)
  | [] => []
  | c :: cs =>
    if isSpace c then Fields cs
    else if (cs.head?.map isSpace).getD true then [c] :: Fields cs
    else
      match Fields cs with
      | [] => [[c]]
      | h :: t => (c :: h) :: t

/-! ## `extractJavaClassName` -/

/-- The loop of `extractJavaClassName` over the lines of the code. -/
def extractFromLines : List (List Char) → List Char
  | [] => []
  | line :: rest =>
    let line := TrimSpace line
    if HasPrefix line "public class ".toList then
      let parts := Fields line
      if 3 ≤ parts.length then
        match parts.get? 2 with
        | some p => TrimSuffix p "\x7b".toList
        | none => []
      else extractFromLines rest
    else extractFromLines rest

/-- The function `extractJavaClassName` of `main.go`. -/
def extractJavaClassName (code : String) : String :=
  String.mk (extractFromLines (splitOn '\n' code.toList))

/-! ## Package `path/filepath` (Unix) and the file system -/

/-- A cleaned path, as `filepath.Clean` returns it: whether it starts at the
root, and its components.  `filepath.Join` always returns a cleaned path. -/
structure Path where
  rooted : Bool
  comps : List String
deriving DecidableEq

/-- The text of a cleaned path. -/
def Path.render (p : Path) : String :=
  if p.comps = [] then (if p.rooted then "/" else ".")
  else (if p.rooted then "/" else "") ++ "/".intercalate p.comps

/-- One component in `filepath.Clean`: empty and `.` components are dropped,
`..` removes the component before it (at the root it is dropped, at the start
of a relative path it is kept), every other component is appended. -/
def cleanStep (rooted : Bool) (out : List String) (c : String) : List String :=
  if c = "" ∨ c = "." then out
  else if c = ".." then
    match out.getLast? with
    | none => if rooted then out else out ++ [c]
    | some l => if l = ".." then out ++ [c] else out.dropLast
  else out ++ [c]

/-- The call `filepath.Join(dir, elem)` for a cleaned `dir`:
`Clean(dir + "/" + elem)`, computed from the components of `dir`. -/
def Path.join (dir : Path) (elem : String) : Path :=
  { dir with
    comps := ((splitOn '/' elem.toList).map String.mk).foldl (cleanStep dir.rooted) dir.comps }

/-- The function `filepath.Clean`. -/
def Clean (s : String) : Path :=
  Path.join { rooted := HasPrefix s.toList ['/'], comps := [] } s

/-- Path `p` is `dir` itself or lies below it. -/
def Path.within (dir p : Path) : Bool :=
  dir.rooted == p.rooted && dir.comps.isPrefixOf p.comps

/-- Path `p` lies strictly below `dir`. -/
def Path.below (dir p : Path) : Bool :=
  dir.within p && p != dir

/-- The part of the file system the engine touches: the directories that
exist and the regular files with their contents. -/
structure FS where
  dirs : List Path
  files : List (Path × String)
deriving DecidableEq

/-- The effect of a successful `os.MkdirAll(p)`: `p` and every missing parent
of it become directories. -/
def FS.mkdirAll (fs : FS) (p : Path) : FS :=
  { fs with
    dirs := fs.dirs ++
      ((p.comps.inits.map fun cs => ({ rooted := p.rooted, comps := cs } : Path)).filter
        fun d => !fs.dirs.contains d) }

/-- The effect of a successful `os.WriteFile(p, data)`. -/
def FS.writeFile (fs : FS) (p : Path) (data : String) : FS :=
  { fs with files := (p, data) :: fs.files.filter fun f => f.1 != p }

/-- The effect of a successful `os.RemoveAll(p)`: `p` and everything below it
is gone. -/
def FS.removeAll (fs : FS) (p : Path) : FS :=
  { dirs := fs.dirs.filter fun d => !p.within d
    files := fs.files.filter fun f => !p.within f.1 }

/-! ## Errors, commands and the environment -/

/-- An `error` value of the program. -/
inductive GoError
  /-- a value made by `fmt.Errorf` -/
  | errorf (text : String)
  /-- an `*exec.ExitError` of a process that exited with a non-zero status -/
  | exit (code : Nat)
  /-- any other error of packages `os` and `os/exec`, with its text -/
  | sys (text : String)
deriving DecidableEq

/-- The method `Error()`. -/
def GoError.Error : GoError → String
  | .errorf t => t
  | .exit c => "exit status " ++ toString c
  | .sys t => t

/-- An `*exec.Cmd`: program, arguments and working directory. -/
structure Cmd where
  Path : String
  Args : List String
  Dir : String
deriving DecidableEq

/-- How an external command ended. -/
inductive ProcStatus
  /-- it ran and exited with this status -/
  | exited (code : Nat)
  /-- it could not be started or did not exit normally; the text of the error -/
  | failed (text : String)
deriving DecidableEq

/-- What an external command does: the combined output it writes, how it
ends, after how many nanoseconds its completion is signalled (`none`: never)
and the file system it leaves. -/
structure Proc where
  output : String
  status : ProcStatus
  doneAt : Option Nat
  fs : FS

/-- Everything `Execute` obtains from its environment. -/
structure World where
  /-- the value of `time.Now().UnixNano()` -/
  now : Int
  /-- the error text of `os.MkdirAll` on this path, if it fails -/
  mkdirErr : Path → Option String
  /-- the error text of `os.WriteFile` on this path, if it fails -/
  writeErr : Path → Option String
  /-- the error text of `os.RemoveAll` on this path, if it fails -/
  removeErr : Path → Option String
  /-- the behaviour of an external command started on a file system -/
  proc : Cmd → FS → Proc
  /-- the choice of `select` when both channels are ready -/
  tie : Bool

/-- What happened, in order. -/
inductive Event
  | mkdirAll (p : Path)
  | writeFile (p : Path)
  | exec (c : Cmd)
  | removeAll (p : Path)
deriving DecidableEq

/-- The state a call runs in: the file system and the log of its actions. -/
structure State where
  fs : FS
  log : List Event
deriving DecidableEq

/-- How a Go call ends: it returns, it panics, or it never returns. -/
inductive Result (α : Type)
  | ret (v : α)
  | panic (text : String)
  | hang
deriving DecidableEq

/-- The error of `cmd.CombinedOutput`: `nil` exactly for exit status zero. -/
def ProcStatus.err : ProcStatus → Option GoError
  | .exited 0 => none
  | .exited (n + 1) => some (.exit (n + 1))
  | .failed t => some (.sys t)

/-! ## `time.Duration` -/

/-- One second, in nanoseconds. -/
def Second : Nat := 1000000000

/-- The function `fmtFrac` of package `time`: the last `prec` decimal digits
of `v` as a fraction, trailing zeros omitted, and the remaining value. -/
def fmtFrac : Nat → Nat → Bool → List Char → List Char × Nat
  | 0, v, print, acc => (if print then '.' :: acc else acc, v)
  | prec + 1, v, print, acc =>
    let digit := v % 10
    let print := print || digit != 0
    fmtFrac prec (v / 10) print (if print then Nat.digitChar digit :: acc else acc)

/-- The method `Duration.String` for a non-negative duration (what `%v`
prints). -/
def durationString (u : Nat) : String :=
  if u < Second then
    if u = 0 then "0s"
    else if u < 1000 then String.mk (Nat.toDigits 10 u) ++ "ns"
    else if u < 1000000 then
      let r := fmtFrac 3 u false []
      String.mk (Nat.toDigits 10 r.2 ++ r.1) ++ "µs"
    else
      let r := fmtFrac 6 u false []
      String.mk (Nat.toDigits 10 r.2 ++ r.1) ++ "ms"
  else
    let r := fmtFrac 9 u false []
    let s := Nat.toDigits 10 (r.2 % 60) ++ r.1 ++ ['s']
    let m := r.2 / 60
    if 0 < m then
      let s := Nat.toDigits 10 (m % 60) ++ 'm' :: s
      let h := m / 60
      if 0 < h then String.mk (Nat.toDigits 10 h ++ 'h' :: s) else String.mk s
    else String.mk s

/-! ## The engine -/

/-- The type `LanguageConfig`; `Timeout` is in nanoseconds. -/
structure LanguageConfig where
  FileExtension : String
  CompileCmd : List String
  RunCmd : List String
  Timeout : Nat
deriving DecidableEq

/-- The type `CodeExecutor`. -/
structure CodeExecutor where
  languages : List (String × LanguageConfig)
  tempDir : Path

/-- The call `filepath.Join(a, b)` on two texts, `b` not empty. -/
def Join (a b : String) : Path :=
  if a = "" then Clean b else Clean (a ++ "/" ++ b)

/-- The function `NewCodeExecutor`; the argument is the value of
`os.TempDir()`.  Its `os.MkdirAll(tempDir)` belongs to the file system a
later `Execute` starts from. -/
def NewCodeExecutor (osTempDir : String) : CodeExecutor :=
  { tempDir := Join osTempDir "compilex"
    languages :=
      [ ("python",
          { FileExtension := ".py", CompileCmd := [], RunCmd := ["python3"],
            Timeout := 10 * Second }),
        ("javascript",
          { FileExtension := ".js", CompileCmd := [], RunCmd := ["node"],
            Timeout := 10 * Second }),
        ("java",
          { FileExtension := ".java", CompileCmd := ["javac"], RunCmd := ["java"],
            Timeout := 15 * Second }),
        ("cpp",
          { FileExtension := ".cpp", CompileCmd := ["g++", "-o"], RunCmd := [],
            Timeout := 15 * Second }),
        ("ruby",
          { FileExtension := ".rb", CompileCmd := [], RunCmd := ["ruby"],
            Timeout := 10 * Second }) ] }

/-- The call `os.MkdirAll(p, 0755)`.  A failed call is taken to leave the file
system as it was. -/
def MkdirAll (w : World) (st : State) (p : Path) : Option GoError × State :=
  match w.mkdirErr p with
  | some t => (some (.sys t), { st with log := st.log ++ [.mkdirAll p] })
  | none => (none, { fs := st.fs.mkdirAll p, log := st.log ++ [.mkdirAll p] })

/-- The call `os.WriteFile(p, data, 0644)`. -/
def WriteFile (w : World) (st : State) (p : Path) (data : String) : Option GoError × State :=
  match w.writeErr p with
  | some t => (some (.sys t), { st with log := st.log ++ [.writeFile p] })
  | none => (none, { fs := st.fs.writeFile p data, log := st.log ++ [.writeFile p] })

/-- The call `os.RemoveAll(p)` with its error discarded, as in the `defer` of
`Execute`.  A failed call is taken to leave the file system as it was. -/
def RemoveAll (w : World) (st : State) (p : Path) : State :=
  match w.removeErr p with
  | some _ => { st with log := st.log ++ [.removeAll p] }
  | none => { fs := st.fs.removeAll p, log := st.log ++ [.removeAll p] }

/-- The external command of `cmd.CombinedOutput()` is started. -/
def CombinedOutput (w : World) (st : State) (cmd : Cmd) : Proc × State :=
  (w.proc cmd st.fs, { fs := (w.proc cmd st.fs).fs, log := st.log ++ [.exec cmd] })

/-- An index expression `xs[i]`, which panics out of range. -/
def index (xs : List String) (i : Nat) : Result String :=
  match xs.get? i with
  | some x => .ret x
  | none =>
    .panic ("index out of range [" ++ toString i ++ "] with length " ++ toString xs.length)

/-- The outcome of a `switch lang` that builds a command. -/
inductive Dispatch
  | cmd (c : Cmd)
  | unsupported
  | panic (text : String)
deriving DecidableEq

/-- The command `exec.Command(name, args...)` with `name` an index expression. -/
def commandAt (xs : List String) (i : Nat) (args : List String) : Dispatch :=
  match index xs i with
  | .ret name => .cmd { Path := name, Args := args, Dir := "" }
  | .panic t => .panic t
  | .hang => .panic ""

/-- The `switch` of `compile`. -/
def compileCmd (lang : String) (filePath execDir : Path) (config : LanguageConfig) : Dispatch :=
  if lang = "java" then commandAt config.CompileCmd 0 [filePath.render]
  else if lang = "cpp" then
    let outputPath := (execDir.join "main").render
    match commandAt config.CompileCmd 0 [], index config.CompileCmd 1 with
    | .cmd c, .ret flag => .cmd { c with Args := [flag, outputPath, filePath.render] }
    | .cmd _, .panic t => .panic t
    | .cmd _, .hang => .panic ""
    | d, _ => d
  else .unsupported

/-- The method `CodeExecutor.compile`. -/
def compile (w : World) (st : State) (lang : String) (filePath execDir : Path)
    (config : LanguageConfig) : Result (String × Option GoError) × State :=
  match compileCmd lang filePath execDir config with
  | .panic t => (.panic t, st)
  | .unsupported => (.ret ("", some (.errorf ("compilation not supported for " ++ lang))), st)
  | .cmd c =>
    let r := CombinedOutput w st { c with Dir := execDir.render }
    match r.1.doneAt with
    | none => (.hang, r.2)
    | some _ => (.ret (r.1.output, r.1.status.err), r.2)

/-- The `switch` of `run`. -/
def runCmd (lang : String) (filePath : Path) (executablePath : String)
    (config : LanguageConfig) : Dispatch :=
  if lang = "python" then commandAt config.RunCmd 0 [filePath.render]
  else if lang = "javascript" then commandAt config.RunCmd 0 [filePath.render]
  else if lang = "ruby" then commandAt config.RunCmd 0 [filePath.render]
  else if lang = "java" then commandAt config.RunCmd 0 [executablePath]
  else if lang = "cpp" then .cmd { Path := executablePath, Args := [], Dir := "" }
  else .unsupported

/-- The `select` of `run`: whether `done` is received before `time.After`
fires.  When both are ready the choice is the environment's. -/
def doneFirst (p : Proc) (timeout : Nat) (tie : Bool) : Bool :=
  match p.doneAt with
  | none => false
  | some t => t < timeout || (t == timeout && tie)

/-- The method `CodeExecutor.run`. -/
def run (w : World) (st : State) (lang : String) (filePath : Path) (executablePath : String)
    (execDir : Path) (config : LanguageConfig) : Result (String × Option GoError) × State :=
  match runCmd lang filePath executablePath config with
  | .panic t => (.panic t, st)
  | .unsupported => (.ret ("", some (.errorf ("execution not supported for " ++ lang))), st)
  | .cmd c =>
    let r := CombinedOutput w st { c with Dir := execDir.render }
    if doneFirst r.1 config.Timeout w.tie then (.ret (r.1.output, r.1.status.err), r.2)
    else
      (.ret ("", some (.errorf ("execution timeout after " ++ durationString config.Timeout))),
        r.2)

/-- The name `filename` that `Execute` gives the staged source file. -/
def fileName (lang code : String) (config : LanguageConfig) : String :=
  if lang = "java" then
    let className := extractJavaClassName code
    let className := if className = "" then "Main" else className
    className ++ config.FileExtension
  else "main" ++ config.FileExtension

/-- The value of `executablePath` after a successful compilation. -/
def executablePath (lang filename : String) (execDir : Path) : String :=
  if lang = "cpp" then (execDir.join "main").render
  else if lang = "java" then String.mk (TrimSuffix filename.toList ".java".toList)
  else ""

/-- The directory `execDir` of a call of `Execute`. -/
def execDirOf (ce : CodeExecutor) (w : World) : Path :=
  ce.tempDir.join (toString w.now)

/-- The statements of `Execute` after the `defer`. -/
def executeBody (w : World) (st : State) (lang code : String) (config : LanguageConfig)
    (execDir : Path) : Result (String × Option GoError) × State :=
  let filename := fileName lang code config
  let filePath := execDir.join filename
  match WriteFile w st filePath code with
  | (some err, st) => (.ret ("", some (.errorf ("failed to write code file: " ++ err.Error))), st)
  | (none, st) =>
    if 0 < config.CompileCmd.length then
      match compile w st lang filePath execDir config with
      | (.ret (output, some err), st) => (.ret ("Compilation Error:\n" ++ output, some err), st)
      | (.ret (_, none), st) =>
        run w st lang filePath (executablePath lang filename execDir) execDir config
      | (.panic t, st) => (.panic t, st)
      | (.hang, st) => (.hang, st)
    else run w st lang filePath "" execDir config

/-- The method `CodeExecutor.Execute`.  The deferred `os.RemoveAll(execDir)`
runs when the body returns or panics; its error is not looked at. -/
def Execute (ce : CodeExecutor) (w : World) (st : State) (lang code : String) :
    Result (String × Option GoError) × State :=
  match ce.languages.lookup lang with
  | none => (.ret ("", some (.errorf ("unsupported language: " ++ lang))), st)
  | some config =>
    let execDir := execDirOf ce w
    match MkdirAll w st execDir with
    | (some err, st) =>
      (.ret ("", some (.errorf ("failed to create execution directory: " ++ err.Error))), st)
    | (none, st) =>
      let r := executeBody w st lang code config execDir
      match r.1 with
      | .hang => r
      | _ => (r.1, RemoveAll w r.2 execDir)

/-! ## The HTTP handler -/

/-- The type `ExecuteRequest`. -/
structure ExecuteRequest where
  Language : String
  Code : String
deriving DecidableEq

/-- The type `ExecuteResponse`; an empty field is left out of the JSON. -/
structure ExecuteResponse where
  Output : String
  Error : String
deriving DecidableEq

/-- What the handler writes: the status code and the body. -/
structure Reply where
  status : Nat
  text : String
  json : Option ExecuteResponse
deriving DecidableEq

/-- The method `CodeExecutor.executeHandler`; `req` is the decoded body,
`none` when decoding fails. -/
def executeHandler (ce : CodeExecutor) (w : World) (st : State) (method : String)
    (req : Option ExecuteRequest) : Result Reply × State :=
  if method ≠ "POST" then
    (.ret { status := 405, text := "Method not allowed", json := none }, st)
  else
    match req with
    | none =>
      (.ret { status := 400, text := "",
              json := some { Output := "", Error := "Invalid JSON request" } }, st)
    | some req =>
      if req.Language = "" ∨ req.Code = "" then
        (.ret { status := 400, text := "",
                json := some { Output := "", Error := "Language and code are required" } }, st)
      else
        match Execute ce w st req.Language req.Code with
        | (.ret (output, some err), st) =>
          (.ret { status := 422, text := "",
                  json := some { Output := if output ≠ "" then output else "",
                                 Error := err.Error } }, st)
        | (.ret (output, none), st) =>
          (.ret { status := 200, text := "", json := some { Output := output, Error := "" } }, st)
        | (.panic t, st) => (.panic t, st)
        | (.hang, st) => (.hang, st)

/-! ## Names for the stages of a call -/

/-- The path `filePath` of the staged source file. -/
def filePathOf (ce : CodeExecutor) (w : World) (lang code : String) (config : LanguageConfig) :
    Path :=
  (execDirOf ce w).join (fileName lang code config)

/-- The argument `executablePath` that `Execute` passes to `run`. -/
def runArg (ce : CodeExecutor) (w : World) (lang code : String) (config : LanguageConfig) :
    String :=
  if 0 < config.CompileCmd.length then
    executablePath lang (fileName lang code config) (execDirOf ce w)
  else ""

/-- The state in which `Execute` calls `run`, when it gets that far: the
directory was made, the file was written and, where there is a compile
command, the compiler returned without an error. -/
def runEntry (ce : CodeExecutor) (w : World) (st : State) (lang code : String)
    (config : LanguageConfig) : Option State :=
  match MkdirAll w st (execDirOf ce w) with
  | (some _, _) => none
  | (none, st1) =>
    match WriteFile w st1 (filePathOf ce w lang code config) code with
    | (some _, _) => none
    | (none, st2) =>
      if 0 < config.CompileCmd.length then
        match compile w st2 lang (filePathOf ce w lang code config) (execDirOf ce w) config with
        | (.ret (_, none), st3) => some st3
        | _ => none
      else some st2

/-- The command the Run Stage starts, with its working directory. -/
def runCommand (ce : CodeExecutor) (w : World) (lang code : String) (config : LanguageConfig) :
    Option Cmd :=
  match runCmd lang (filePathOf ce w lang code config) (runArg ce w lang code config) config with
  | .cmd c => some { c with Dir := (execDirOf ce w).render }
  | _ => none

/-- The command the Build Stage starts, with its working directory. -/
def compileCommand (ce : CodeExecutor) (w : World) (lang code : String)
    (config : LanguageConfig) : Option Cmd :=
  match compileCmd lang (filePathOf ce w lang code config) (execDirOf ce w) config with
  | .cmd c => some { c with Dir := (execDirOf ce w).render }
  | _ => none

/-- The error `run` returns when the timeout fires first. -/
def timeoutError (config : LanguageConfig) : GoError :=
  .errorf ("execution timeout after " ++ durationString config.Timeout)

/-- The state after the execution directory was made. -/
def mkdirState (ce : CodeExecutor) (w : World) (st : State) : State :=
  { fs := st.fs.mkdirAll (execDirOf ce w), log := st.log ++ [.mkdirAll (execDirOf ce w)] }

/-- The state after the source file was written. -/
def stagedState (ce : CodeExecutor) (w : World) (st : State) (lang code : String)
    (config : LanguageConfig) : State :=
  { fs := (mkdirState ce w st).fs.writeFile (filePathOf ce w lang code config) code
    log := (mkdirState ce w st).log ++ [.writeFile (filePathOf ce w lang code config)] }

/-- The state an external command leaves when started in state `s`. -/
def afterCmd (w : World) (s : State) (c : Cmd) : State :=
  { fs := (w.proc c s.fs).fs, log := s.log ++ [.exec c] }

/-! ## Sample environments -/

/-- A state in which `/tmp` and `/tmp/compilex` exist and nothing was logged. -/
def sampleState : State :=
  { fs := { dirs := [Clean "/", Clean "/tmp", Clean "/tmp/compilex"], files := [] }, log := [] }

/-- An environment at time 1700000000000000000 in which no file-system call
fails and every command prints `out`, ends with `status` after `doneAt`
nanoseconds and leaves the files as they are. -/
def sampleWorld (out : String) (status : ProcStatus) (doneAt : Option Nat) : World :=
  { now := 1700000000000000000
    mkdirErr := fun _ => none
    writeErr := fun _ => none
    removeErr := fun _ => none
    proc := fun _ fs => { output := out, status := status, doneAt := doneAt, fs := fs }
    tie := false }

/-- The registry entry of python. -/
def pythonConfig : LanguageConfig :=
  { FileExtension := ".py", CompileCmd := [], RunCmd := ["python3"], Timeout := 10 * Second }

/-- The registry entry of java. -/
def javaConfig : LanguageConfig :=
  { FileExtension := ".java", CompileCmd := ["javac"], RunCmd := ["java"],
    Timeout := 15 * Second }

/-- The registry entry of cpp. -/
def cppConfig : LanguageConfig :=
  { FileExtension := ".cpp", CompileCmd := ["g++", "-o"], RunCmd := [], Timeout := 15 * Second }

/-- The execution directory of the sample environments. -/
def sampleDir : Path :=
  { rooted := true, comps := ["tmp", "compilex", "1700000000000000000"] }

/-- An environment in which every command leaves a directory `obj` and a
file `main` in the sample execution directory and exits with status 0. -/
def artifactWorld : World :=
  { now := 1700000000000000000
    mkdirErr := fun _ => none
    writeErr := fun _ => none
    removeErr := fun _ => none
    proc := fun _ fs =>
      { output := "ok\n", status := .exited 0, doneAt := some 3,
        fs := { dirs := fs.dirs ++ [sampleDir.join "obj"],
                files := (sampleDir.join "main", "\x7fELF") :: fs.files } }
    tie := false }

/-- The environment `artifactWorld`, except that every `os.RemoveAll` fails. -/
def stuckWorld : World :=
  { artifactWorld with removeErr := fun _ => some "permission denied" }

/-! ## The registry -/

theorem lookup_cases (t lang : String) (cfg : LanguageConfig)
    (h : (NewCodeExecutor t).languages.lookup lang = some cfg) :
    (lang = "python" ∧ cfg = ⟨".py", [], ["python3"], 10 * Second⟩) ∨
    (lang = "javascript" ∧ cfg = ⟨".js", [], ["node"], 10 * Second⟩) ∨
    (lang = "java" ∧ cfg = ⟨".java", ["javac"], ["java"], 15 * Second⟩) ∨
    (lang = "cpp" ∧ cfg = ⟨".cpp", ["g++", "-o"], [], 15 * Second⟩) ∨
    (lang = "ruby" ∧ cfg = ⟨".rb", [], ["ruby"], 10 * Second⟩) := by
  simp only [NewCodeExecutor, List.lookup] at h
  split at h
  · simp_all
  · split at h
    · simp_all
    · split at h
      · simp_all
      · split at h
        · simp_all
        · split at h
          · simp_all
          · simp at h

theorem lookup_none (t lang : String)
    (h : lang ∉ ["python", "javascript", "java", "cpp", "ruby"]) :
    (NewCodeExecutor t).languages.lookup lang = none := by
  simp only [List.mem_cons, List.mem_singleton, not_or, List.not_mem_nil, or_false] at h
  obtain ⟨h1, h2, h3, h4, h5⟩ := h
  have e1 : (lang == "python") = false := by simpa using h1
  have e2 : (lang == "javascript") = false := by simpa using h2
  have e3 : (lang == "java") = false := by simpa using h3
  have e4 : (lang == "cpp") = false := by simpa using h4
  have e5 : (lang == "ruby") = false := by simpa using h5
  simp only [NewCodeExecutor, List.lookup, e1, e2, e3, e4, e5]

theorem RemoveAll_log (w : World) (st : State) (p : Path) :
    (RemoveAll w st p).log = st.log ++ [.removeAll p] := by
  unfold RemoveAll
  split <;> rfl

theorem RemoveAll_fs (w : World) (st : State) (p : Path) (h : w.removeErr p = none) :
    (RemoveAll w st p).fs = st.fs.removeAll p := by
  simp only [RemoveAll, h]

/-! ## Unsupported languages -/

/-- Claim C1: for a language identifier outside the registry `Execute` returns
the empty output and the error "unsupported language: <identifier>", and the
state is the one it started in: no directory made, no file written, nothing
logged. -/
theorem Execute_unsupported (t : String) (w : World) (st : State) (lang code : String)
    (h : lang ∉ ["python", "javascript", "java", "cpp", "ruby"]) :
    Execute (NewCodeExecutor t) w st lang code =
      (.ret ("", some (.errorf ("unsupported language: " ++ lang))), st) := by
  simp only [Execute, lookup_none t lang h]

/-! ## From `Execute` to `run` -/

theorem run_ne_hang (w : World) (st : State) (lang : String) (fp : Path) (ep : String)
    (E : Path) (cfg : LanguageConfig) : (run w st lang fp ep E cfg).1 ≠ .hang := by
  unfold run
  split
  · simp
  · simp
  · dsimp only
    split <;> simp

theorem Execute_of_runEntry (ce : CodeExecutor) (w : World) (st s : State) (lang code : String)
    (cfg : LanguageConfig) (hcfg : ce.languages.lookup lang = some cfg)
    (h : runEntry ce w st lang code cfg = some s) :
    Execute ce w st lang code =
      ((run w s lang (filePathOf ce w lang code cfg) (runArg ce w lang code cfg)
          (execDirOf ce w) cfg).1,
       RemoveAll w (run w s lang (filePathOf ce w lang code cfg) (runArg ce w lang code cfg)
          (execDirOf ce w) cfg).2 (execDirOf ce w)) := by
  have hr := run_ne_hang w s lang (filePathOf ce w lang code cfg) (runArg ce w lang code cfg)
    (execDirOf ce w) cfg
  unfold runEntry at h
  unfold Execute
  simp only [hcfg]
  split at h
  · simp at h
  · rename_i st1 hmk
    have hb : executeBody w st1 lang code cfg (execDirOf ce w) =
        run w s lang (filePathOf ce w lang code cfg) (runArg ce w lang code cfg)
          (execDirOf ce w) cfg := by
      unfold executeBody
      simp only [filePathOf, runArg] at h ⊢
      split at h
      · simp at h
      · rename_i st2 hwr
        split at h
        · rename_i hc
          simp only [hc, if_true]
          split at h
          · rename_i o st3 hco
            simp only [Option.some.injEq] at h
            subst h
            rw [hco]
          · simp at h
        · rename_i hc
          simp only [Option.some.injEq] at h
          subst h
          simp only [hc, if_false]
    rw [hb]
    split
    · rename_i hh; exact absurd hh hr
    · rfl

/-! ## Facts about package `strings` -/

theorem TrimSuffix_append (a b : List Char) : TrimSuffix (a ++ b) b = a := by
  simp [TrimSuffix, HasSuffix]

theorem trimSuffix_fileName (N ext : String) :
    String.mk (TrimSuffix (N ++ ext).toList ext.toList) = N := by
  simp [String.toList, String.data_append, TrimSuffix_append]

theorem Fields_word_space (word : List Char) (sp : Char) (r : List Char) (hne : word ≠ [])
    (hword : ∀ c ∈ word, isSpace c = false) (hsp : isSpace sp = true) :
    Fields (word ++ sp :: r) = word :: Fields r := by
  induction word with
  | nil => exact absurd rfl hne
  | cons c rest ih =>
    have hc : isSpace c = false := hword c (List.mem_cons_self _ _)
    cases rest with
    | nil =>
      show Fields (c :: sp :: r) = _
      rw [Fields.eq_2, Fields.eq_2 sp]
      simp only [hc, hsp, List.head?_cons, Option.map_some', Option.getD_some,
        Bool.false_eq_true, if_false, if_true]
    | cons d rest2 =>
      have hd : isSpace d = false := hword d (by simp)
      have ih2 := ih (by simp) (fun x hx => hword x (List.mem_cons_of_mem _ hx))
      show Fields (c :: (d :: rest2 ++ sp :: r)) = _
      rw [Fields.eq_2, ih2]
      simp only [hc, hd, List.cons_append, List.head?_cons, Option.map_some', Option.getD_some,
        Bool.false_eq_true, if_false]

theorem Fields_ne_nil (s : List Char) (c : Char) (hc : c ∈ s) (hns : isSpace c = false) :
    Fields s ≠ [] := by
  induction s with
  | nil => simp at hc
  | cons a rest ih =>
    rw [Fields.eq_2]
    by_cases ha : isSpace a = true
    · simp only [ha, if_true]
      rcases List.mem_cons.mp hc with h | h
      · rw [h] at hns; rw [hns] at ha; exact absurd ha (by simp)
      · exact ih h
    · have ha2 : isSpace a = false := by simpa using ha
      simp only [ha2, Bool.false_eq_true, if_false]
      split
      · simp
      · split <;> simp

theorem TrimSpace_getLast (s : List Char) (h : TrimSpace s ≠ []) :
    isSpace ((TrimSpace s).getLast h) = false := by
  have := List.rdropWhile_last_not isSpace (s.dropWhile isSpace) h
  simpa using this

theorem Fields_public_class (line : List Char)
    (h : HasPrefix (TrimSpace line) "public class ".toList = true) :
    ∃ r, r ≠ [] ∧ TrimSpace line = "public class ".toList ++ r ∧
      Fields (TrimSpace line) = "public".toList :: "class".toList :: Fields r ∧
      Fields r ≠ [] := by
  simp only [HasPrefix, List.isPrefixOf_iff_prefix] at h
  obtain ⟨r, hr⟩ := h
  have hne : TrimSpace line ≠ [] := by rw [← hr]; simp
  have hlast := TrimSpace_getLast line hne
  have hrne : r ≠ [] := by
    intro h0
    subst h0
    have : (TrimSpace line).getLast hne = ' ' := by
      simp only [← hr]; rfl
    rw [this] at hlast
    exact absurd hlast (by decide)
  have hmem : (TrimSpace line).getLast hne ∈ r := by
    have : (TrimSpace line).getLast hne = r.getLast hrne := by
      simp only [← hr]
      exact List.getLast_append_of_ne_nil hrne
    rw [this]
    exact List.getLast_mem hrne
  refine ⟨r, hrne, hr.symm, ?_, Fields_ne_nil r _ hmem hlast⟩
  rw [← hr]
  have e : "public class ".toList ++ r = "public".toList ++ ' ' :: ("class".toList ++ ' ' :: r) :=
    rfl
  rw [e, Fields_word_space _ _ _ (by decide) (by decide) (by decide),
    Fields_word_space _ _ _ (by decide) (by decide) (by decide)]

/-! ## The commands of the two stages -/

theorem run_state (w : World) (s : State) (lang : String) (fp : Path) (ep : String) (E : Path)
    (cfg : LanguageConfig) (c : Cmd) (h : runCmd lang fp ep cfg = .cmd c) :
    (run w s lang fp ep E cfg).2 =
      { fs := (w.proc { c with Dir := E.render } s.fs).fs,
        log := s.log ++ [.exec { c with Dir := E.render }] } := by
  unfold run
  simp only [h, CombinedOutput]
  split <;> rfl

/-- Claim C9: on every call that reaches the Run Stage, the command started
is, in the workspace as working directory: the interpreter (`python3`, `node`,
`ruby`) with the staged file path as its one argument; `java` with the one
argument `N`, where `N.java` is the name of the staged file; for cpp the
program `<workspace>/main` without arguments, the very path the compiler got
after `-o`.  The log of `Execute` shows that command and then the removal of
the workspace. -/
theorem run_resolves (t : String) (w : World) (st s : State) (lang code : String)
    (cfg : LanguageConfig)
    (hcfg : (NewCodeExecutor t).languages.lookup lang = some cfg)
    (hreach : runEntry (NewCodeExecutor t) w st lang code cfg = some s) :
    ∃ c, runCommand (NewCodeExecutor t) w lang code cfg = some c ∧
      (Execute (NewCodeExecutor t) w st lang code).2.log =
        s.log ++ [.exec c, .removeAll (execDirOf (NewCodeExecutor t) w)] ∧
      c.Dir = (execDirOf (NewCodeExecutor t) w).render ∧
      (lang = "python" → c.Path = "python3" ∧
        c.Args = [(filePathOf (NewCodeExecutor t) w lang code cfg).render]) ∧
      (lang = "javascript" → c.Path = "node" ∧
        c.Args = [(filePathOf (NewCodeExecutor t) w lang code cfg).render]) ∧
      (lang = "ruby" → c.Path = "ruby" ∧
        c.Args = [(filePathOf (NewCodeExecutor t) w lang code cfg).render]) ∧
      (lang = "java" → c.Path = "java" ∧
        ∃ N, c.Args = [N] ∧ fileName lang code cfg = N ++ ".java") ∧
      (lang = "cpp" → c.Path = ((execDirOf (NewCodeExecutor t) w).join "main").render ∧
        c.Args = [] ∧
        compileCommand (NewCodeExecutor t) w lang code cfg =
          some { Path := "g++",
                 Args := ["-o", c.Path, (filePathOf (NewCodeExecutor t) w lang code cfg).render],
                 Dir := (execDirOf (NewCodeExecutor t) w).render }) := by
  have hE := Execute_of_runEntry (NewCodeExecutor t) w st s lang code cfg hcfg hreach
  have key : ∀ c0, runCmd lang (filePathOf (NewCodeExecutor t) w lang code cfg)
      (runArg (NewCodeExecutor t) w lang code cfg) cfg = .cmd c0 →
      runCommand (NewCodeExecutor t) w lang code cfg =
        some { c0 with Dir := (execDirOf (NewCodeExecutor t) w).render } ∧
      (Execute (NewCodeExecutor t) w st lang code).2.log =
        s.log ++ [.exec { c0 with Dir := (execDirOf (NewCodeExecutor t) w).render },
          .removeAll (execDirOf (NewCodeExecutor t) w)] := by
    intro c0 h0
    refine ⟨by simp only [runCommand, h0], ?_⟩
    rw [hE]
    simp only [RemoveAll_log, run_state w s lang _ _ _ cfg c0 h0, List.append_assoc,
      List.singleton_append]
  rcases lookup_cases t lang cfg hcfg with ⟨rfl, hc⟩ | ⟨rfl, hc⟩ | ⟨rfl, hc⟩ | ⟨rfl, hc⟩ |
    ⟨rfl, hc⟩
  · have h0 : runCmd "python" (filePathOf (NewCodeExecutor t) w "python" code cfg)
        (runArg (NewCodeExecutor t) w "python" code cfg) cfg =
        .cmd ⟨"python3", [(filePathOf (NewCodeExecutor t) w "python" code cfg).render], ""⟩ := by
      subst hc; simp [runCmd, commandAt, index]
    obtain ⟨h1, h2⟩ := key _ h0
    exact ⟨_, h1, h2, rfl, by simp, by simp, by simp, by simp, by simp⟩
  · have h0 : runCmd "javascript" (filePathOf (NewCodeExecutor t) w "javascript" code cfg)
        (runArg (NewCodeExecutor t) w "javascript" code cfg) cfg =
        .cmd ⟨"node", [(filePathOf (NewCodeExecutor t) w "javascript" code cfg).render], ""⟩ := by
      subst hc; simp [runCmd, commandAt, index]
    obtain ⟨h1, h2⟩ := key _ h0
    exact ⟨_, h1, h2, rfl, by simp, by simp, by simp, by simp, by simp⟩
  · have h0 : runCmd "java" (filePathOf (NewCodeExecutor t) w "java" code cfg)
        (runArg (NewCodeExecutor t) w "java" code cfg) cfg =
        .cmd ⟨"java", [runArg (NewCodeExecutor t) w "java" code cfg], ""⟩ := by
      subst hc; simp [runCmd, commandAt, index]
    obtain ⟨h1, h2⟩ := key _ h0
    refine ⟨_, h1, h2, rfl, by simp, by simp, by simp, ?_, by simp⟩
    intro _
    refine ⟨rfl, _, rfl, ?_⟩
    subst hc
    have e := trimSuffix_fileName
      (if extractJavaClassName code = "" then "Main" else extractJavaClassName code) ".java"
    have e1 : ("java" = "cpp") = False := by decide
    simp only [runArg, executablePath, fileName, List.length_singleton, Nat.zero_lt_one,
      if_true, e1, if_false, e]
  · have h0 : runCmd "cpp" (filePathOf (NewCodeExecutor t) w "cpp" code cfg)
        (runArg (NewCodeExecutor t) w "cpp" code cfg) cfg =
        .cmd ⟨runArg (NewCodeExecutor t) w "cpp" code cfg, [], ""⟩ := by
      subst hc; simp [runCmd]
    obtain ⟨h1, h2⟩ := key _ h0
    refine ⟨_, h1, h2, rfl, by simp, by simp, by simp, by simp, ?_⟩
    intro _
    subst hc
    simp [runArg, executablePath, compileCommand, compileCmd, commandAt, index]
  · have h0 : runCmd "ruby" (filePathOf (NewCodeExecutor t) w "ruby" code cfg)
        (runArg (NewCodeExecutor t) w "ruby" code cfg) cfg =
        .cmd ⟨"ruby", [(filePathOf (NewCodeExecutor t) w "ruby" code cfg).render], ""⟩ := by
      subst hc; simp [runCmd, commandAt, index]
    obtain ⟨h1, h2⟩ := key _ h0
    exact ⟨_, h1, h2, rfl, by simp, by simp, by simp, by simp, by simp⟩

/-! ## No panic and no dispatch fallback -/

theorem run_ret_of_cmd (w : World) (st : State) (lang : String) (fp : Path) (ep : String)
    (E : Path) (cfg : LanguageConfig) (c : Cmd) (h : runCmd lang fp ep cfg = .cmd c) :
    ∃ v, (run w st lang fp ep E cfg).1 = .ret v := by
  unfold run
  simp only [h]
  split
  · exact ⟨_, rfl⟩
  · exact ⟨_, rfl⟩

theorem compile_no_panic (w : World) (st : State) (lang : String) (fp E : Path)
    (cfg : LanguageConfig) (c : Cmd) (h : compileCmd lang fp E cfg = .cmd c) (text : String) :
    (compile w st lang fp E cfg).1 ≠ .panic text := by
  unfold compile
  simp only [h]
  split <;> simp

theorem executeBody_no_panic (w : World) (st : State) (lang code : String)
    (cfg : LanguageConfig) (E : Path)
    (hc : 0 < cfg.CompileCmd.length → ∀ fp, ∃ c, compileCmd lang fp E cfg = .cmd c)
    (hr : ∀ fp ep, ∃ c, runCmd lang fp ep cfg = .cmd c) (text : String) :
    (executeBody w st lang code cfg E).1 ≠ .panic text := by
  have hrun : ∀ s fp ep, (run w s lang fp ep E cfg).1 ≠ .panic text := by
    intro s fp ep
    obtain ⟨c, h⟩ := hr fp ep
    obtain ⟨v, hv⟩ := run_ret_of_cmd w s lang fp ep E cfg c h
    rw [hv]; simp
  unfold executeBody
  dsimp only
  split
  · simp
  · rename_i stw hw
    split
    · rename_i hlen
      obtain ⟨c, h⟩ := hc hlen (E.join (fileName lang code cfg))
      split
      · simp
      · exact hrun _ _ _
      · rename_i t2 st2 heq
        have := compile_no_panic w stw lang _ E cfg c h t2
        rw [heq] at this
        exact absurd rfl this
      · simp
    · exact hrun _ _ _

theorem Execute_no_panic (ce : CodeExecutor) (w : World) (st : State) (lang code : String)
    (cfg : LanguageConfig) (hcfg : ce.languages.lookup lang = some cfg)
    (hc : 0 < cfg.CompileCmd.length → ∀ fp E, ∃ c, compileCmd lang fp E cfg = .cmd c)
    (hr : ∀ fp ep, ∃ c, runCmd lang fp ep cfg = .cmd c) (text : String) :
    (Execute ce w st lang code).1 ≠ .panic text := by
  unfold Execute
  simp only [hcfg]
  split
  · simp
  · rename_i st1 hmk
    have := executeBody_no_panic w st1 lang code cfg (execDirOf ce w)
      (fun hl fp => hc hl fp _) hr text
    split
    · rename_i hh; rw [hh]; simp
    · exact this

/-- Claim C10: for a language of the registry no index is out of range and no
dispatch falls through.  A compile command exists only for java and cpp, and
then the `switch` of `compile` yields a command, `CompileCmd[0]` exists and,
for cpp, `CompileCmd[1]`; the `switch` of `run` always yields a command,
`RunCmd[0]` exists for every language but cpp, whose `RunCmd` is not read;
`Execute` never panics; and a trimmed line that starts with "public class "
has at least three fields. -/
theorem no_fallback (t lang : String) (cfg : LanguageConfig)
    (hcfg : (NewCodeExecutor t).languages.lookup lang = some cfg) :
    (0 < cfg.CompileCmd.length →
      (lang = "java" ∨ lang = "cpp") ∧
      (∀ fp E, ∃ c, compileCmd lang fp E cfg = .cmd c) ∧
      (∃ x, index cfg.CompileCmd 0 = .ret x) ∧
      (lang = "cpp" → ∃ x, index cfg.CompileCmd 1 = .ret x)) ∧
    (∀ fp ep, ∃ c, runCmd lang fp ep cfg = .cmd c) ∧
    (lang ≠ "cpp" → ∃ x, index cfg.RunCmd 0 = .ret x) ∧
    (lang = "cpp" → ∀ fp ep rc,
      runCmd lang fp ep { cfg with RunCmd := rc } = runCmd lang fp ep cfg) ∧
    (∀ w st code text, (Execute (NewCodeExecutor t) w st lang code).1 ≠ .panic text) ∧
    (∀ line, HasPrefix (TrimSpace line) "public class ".toList = true →
      3 ≤ (Fields (TrimSpace line)).length) := by
  have hC : 0 < cfg.CompileCmd.length →
      (lang = "java" ∨ lang = "cpp") ∧
      (∀ fp E, ∃ c, compileCmd lang fp E cfg = .cmd c) ∧
      (∃ x, index cfg.CompileCmd 0 = .ret x) ∧
      (lang = "cpp" → ∃ x, index cfg.CompileCmd 1 = .ret x) := by
    intro hlen
    rcases lookup_cases t lang cfg hcfg with ⟨rfl, rfl⟩ | ⟨rfl, rfl⟩ | ⟨rfl, rfl⟩ | ⟨rfl, rfl⟩ |
      ⟨rfl, rfl⟩
    · simp at hlen
    · simp at hlen
    · exact ⟨Or.inl rfl, fun fp E => by simp [compileCmd, commandAt, index],
        by simp [index], by simp⟩
    · exact ⟨Or.inr rfl, fun fp E => by simp [compileCmd, commandAt, index],
        by simp [index], fun _ => by simp [index]⟩
    · simp at hlen
  have hR : ∀ fp ep, ∃ c, runCmd lang fp ep cfg = .cmd c := by
    intro fp ep
    rcases lookup_cases t lang cfg hcfg with ⟨rfl, rfl⟩ | ⟨rfl, rfl⟩ | ⟨rfl, rfl⟩ | ⟨rfl, rfl⟩ |
      ⟨rfl, rfl⟩ <;> simp [runCmd, commandAt, index]
  refine ⟨hC, hR, ?_, ?_, ?_, ?_⟩
  · intro hne
    rcases lookup_cases t lang cfg hcfg with ⟨rfl, rfl⟩ | ⟨rfl, rfl⟩ | ⟨rfl, rfl⟩ | ⟨rfl, rfl⟩ |
      ⟨rfl, rfl⟩
    · simp [index]
    · simp [index]
    · simp [index]
    · exact absurd rfl hne
    · simp [index]
  · intro hl fp ep rc
    subst hl
    simp [runCmd]
  · intro w st code text
    exact Execute_no_panic _ w st lang code cfg hcfg (fun hl fp E => (hC hl).2.1 fp E) hR text
  · intro line h
    obtain ⟨r, _, _, hf, hne⟩ := Fields_public_class line h
    rw [hf]
    cases hfr : Fields r with
    | nil => exact absurd hfr hne
    | cons a b => simp

/-! ## The paths of `Execute`, one by one -/

theorem run_of_runCommand (ce : CodeExecutor) (w : World) (s : State) (lang code : String)
    (cfg : LanguageConfig) (c : Cmd) (hc : runCommand ce w lang code cfg = some c) :
    run w s lang (filePathOf ce w lang code cfg) (runArg ce w lang code cfg) (execDirOf ce w) cfg =
      (if doneFirst (w.proc c s.fs) cfg.Timeout w.tie then
          .ret ((w.proc c s.fs).output, (w.proc c s.fs).status.err)
        else .ret ("", some (timeoutError cfg)),
       afterCmd w s c) := by
  unfold runCommand at hc
  unfold run
  split at hc
  · rename_i c0 h0
    simp only [Option.some.injEq] at hc
    subst hc
    simp only [h0, CombinedOutput, afterCmd, timeoutError]
    split <;> rfl
  · simp at hc

theorem Execute_mkdir_fail (ce : CodeExecutor) (w : World) (st : State) (lang code : String)
    (cfg : LanguageConfig) (x : String) (hcfg : ce.languages.lookup lang = some cfg)
    (hmk : w.mkdirErr (execDirOf ce w) = some x) :
    Execute ce w st lang code =
      (.ret ("", some (.errorf ("failed to create execution directory: " ++ x))),
       { st with log := st.log ++ [.mkdirAll (execDirOf ce w)] }) := by
  simp only [Execute, hcfg, MkdirAll, hmk, GoError.Error]

theorem Execute_write_fail (ce : CodeExecutor) (w : World) (st : State) (lang code : String)
    (cfg : LanguageConfig) (x : String) (hcfg : ce.languages.lookup lang = some cfg)
    (hmk : w.mkdirErr (execDirOf ce w) = none)
    (hwr : w.writeErr (filePathOf ce w lang code cfg) = some x) :
    Execute ce w st lang code =
      (.ret ("", some (.errorf ("failed to write code file: " ++ x))),
       RemoveAll w { mkdirState ce w st with
           log := (mkdirState ce w st).log ++ [.writeFile (filePathOf ce w lang code cfg)] }
         (execDirOf ce w)) := by
  simp only [filePathOf] at hwr
  simp only [Execute, hcfg, MkdirAll, hmk, executeBody, WriteFile, hwr, GoError.Error,
    mkdirState, filePathOf]

theorem compile_of_compileCommand (ce : CodeExecutor) (w : World) (s : State)
    (lang code : String) (cfg : LanguageConfig) (c : Cmd)
    (hc : compileCommand ce w lang code cfg = some c) :
    compile w s lang (filePathOf ce w lang code cfg) (execDirOf ce w) cfg =
      (match (w.proc c s.fs).doneAt with
        | none => .hang
        | some _ => .ret ((w.proc c s.fs).output, (w.proc c s.fs).status.err),
       afterCmd w s c) := by
  unfold compileCommand at hc
  unfold compile
  split at hc
  · rename_i c0 h0
    simp only [Option.some.injEq] at hc
    subst hc
    simp only [h0, CombinedOutput, afterCmd]
    split <;> simp_all
  · simp at hc

theorem executeBody_staged (ce : CodeExecutor) (w : World) (st : State) (lang code : String)
    (cfg : LanguageConfig) (hwr : w.writeErr (filePathOf ce w lang code cfg) = none) :
    executeBody w (mkdirState ce w st) lang code cfg (execDirOf ce w) =
      if 0 < cfg.CompileCmd.length then
        match compile w (stagedState ce w st lang code cfg) lang (filePathOf ce w lang code cfg)
            (execDirOf ce w) cfg with
        | (.ret (output, some err), st) => (.ret ("Compilation Error:\n" ++ output, some err), st)
        | (.ret (_, none), st) =>
          run w st lang (filePathOf ce w lang code cfg) (runArg ce w lang code cfg)
            (execDirOf ce w) cfg
        | (.panic t, st) => (.panic t, st)
        | (.hang, st) => (.hang, st)
      else
        run w (stagedState ce w st lang code cfg) lang (filePathOf ce w lang code cfg)
          (runArg ce w lang code cfg) (execDirOf ce w) cfg := by
  simp only [filePathOf] at hwr
  unfold executeBody
  simp only [WriteFile, hwr, stagedState, filePathOf, runArg]
  split
  · rfl
  · rfl

theorem Execute_staged (ce : CodeExecutor) (w : World) (st : State) (lang code : String)
    (cfg : LanguageConfig) (hcfg : ce.languages.lookup lang = some cfg)
    (hmk : w.mkdirErr (execDirOf ce w) = none) :
    Execute ce w st lang code =
      match (executeBody w (mkdirState ce w st) lang code cfg (execDirOf ce w)).1 with
      | .hang => executeBody w (mkdirState ce w st) lang code cfg (execDirOf ce w)
      | _ => ((executeBody w (mkdirState ce w st) lang code cfg (execDirOf ce w)).1,
          RemoveAll w (executeBody w (mkdirState ce w st) lang code cfg (execDirOf ce w)).2
            (execDirOf ce w)) := by
  simp only [Execute, hcfg, MkdirAll, hmk, mkdirState]

theorem Execute_compile_fail (ce : CodeExecutor) (w : World) (st : State) (lang code : String)
    (cfg : LanguageConfig) (c : Cmd) (e : GoError) (d : Nat)
    (hcfg : ce.languages.lookup lang = some cfg)
    (hmk : w.mkdirErr (execDirOf ce w) = none)
    (hwr : w.writeErr (filePathOf ce w lang code cfg) = none)
    (hlen : 0 < cfg.CompileCmd.length)
    (hc : compileCommand ce w lang code cfg = some c)
    (hdone : (w.proc c (stagedState ce w st lang code cfg).fs).doneAt = some d)
    (herr : (w.proc c (stagedState ce w st lang code cfg).fs).status.err = some e) :
    Execute ce w st lang code =
      (.ret ("Compilation Error:\n" ++ (w.proc c (stagedState ce w st lang code cfg).fs).output,
          some e),
       RemoveAll w (afterCmd w (stagedState ce w st lang code cfg) c) (execDirOf ce w)) := by
  rw [Execute_staged ce w st lang code cfg hcfg hmk,
    executeBody_staged ce w st lang code cfg hwr]
  simp only [hlen, if_true, compile_of_compileCommand ce w _ lang code cfg c hc, hdone, herr]

theorem Execute_compile_hang (ce : CodeExecutor) (w : World) (st : State) (lang code : String)
    (cfg : LanguageConfig) (c : Cmd)
    (hcfg : ce.languages.lookup lang = some cfg)
    (hmk : w.mkdirErr (execDirOf ce w) = none)
    (hwr : w.writeErr (filePathOf ce w lang code cfg) = none)
    (hlen : 0 < cfg.CompileCmd.length)
    (hc : compileCommand ce w lang code cfg = some c)
    (hdone : (w.proc c (stagedState ce w st lang code cfg).fs).doneAt = none) :
    Execute ce w st lang code = (.hang, afterCmd w (stagedState ce w st lang code cfg) c) := by
  rw [Execute_staged ce w st lang code cfg hcfg hmk,
    executeBody_staged ce w st lang code cfg hwr]
  simp only [hlen, if_true, compile_of_compileCommand ce w _ lang code cfg c hc, hdone]

theorem runEntry_compiled (ce : CodeExecutor) (w : World) (st : State) (lang code : String)
    (cfg : LanguageConfig) (c : Cmd) (d : Nat)
    (hmk : w.mkdirErr (execDirOf ce w) = none)
    (hwr : w.writeErr (filePathOf ce w lang code cfg) = none)
    (hlen : 0 < cfg.CompileCmd.length)
    (hc : compileCommand ce w lang code cfg = some c)
    (hdone : (w.proc c (stagedState ce w st lang code cfg).fs).doneAt = some d)
    (herr : (w.proc c (stagedState ce w st lang code cfg).fs).status.err = none) :
    runEntry ce w st lang code cfg = some (afterCmd w (stagedState ce w st lang code cfg) c) := by
  have hcomp := compile_of_compileCommand ce w (stagedState ce w st lang code cfg) lang code
    cfg c hc
  simp only [hdone, herr] at hcomp
  simp only [stagedState, mkdirState] at hcomp
  simp only [runEntry, MkdirAll, hmk, WriteFile, hwr, hlen, if_true, hcomp, stagedState,
    mkdirState]

theorem runEntry_interpreted (ce : CodeExecutor) (w : World) (st : State) (lang code : String)
    (cfg : LanguageConfig)
    (hmk : w.mkdirErr (execDirOf ce w) = none)
    (hwr : w.writeErr (filePathOf ce w lang code cfg) = none)
    (hlen : ¬ 0 < cfg.CompileCmd.length) :
    runEntry ce w st lang code cfg = some (stagedState ce w st lang code cfg) := by
  simp only [runEntry, MkdirAll, hmk, WriteFile, hwr, hlen, if_false, stagedState, mkdirState]

/-! ## The timeout race -/

theorem timeout_text_ne_exit (cfg : LanguageConfig) (n : Nat) :
    (timeoutError cfg).Error ≠ (GoError.exit n).Error := by
  intro h
  have h2 := congrArg String.data h
  simp only [timeoutError, GoError.Error, String.data_append] at h2
  have h3 := congrArg (fun l => l.get? 2) h2
  simp at h3

theorem registry_timeout (t lang : String) (cfg : LanguageConfig)
    (hcfg : (NewCodeExecutor t).languages.lookup lang = some cfg) :
    durationString cfg.Timeout = "10s" ∨ durationString cfg.Timeout = "15s" := by
  rcases lookup_cases t lang cfg hcfg with ⟨rfl, rfl⟩ | ⟨rfl, rfl⟩ | ⟨rfl, rfl⟩ | ⟨rfl, rfl⟩ |
    ⟨rfl, rfl⟩
  · exact Or.inl (by decide)
  · exact Or.inl (by decide)
  · exact Or.inr (by decide)
  · exact Or.inr (by decide)
  · exact Or.inl (by decide)

theorem status_err_ne_timeout (p : ProcStatus) (cfg : LanguageConfig) :
    p.err ≠ some (timeoutError cfg) := by
  cases p with
  | exited n => cases n <;> simp [ProcStatus.err, timeoutError]
  | failed x => simp [ProcStatus.err, timeoutError]

/-- Claim C4: on a call that reaches the Run Stage with command `c`: when the
timeout fires first, `run` and `Execute` return the empty output and the error
"execution timeout after <profile timeout>" (10s or 15s), whatever the process
printed; that error differs, as a value and in its text, from the error of
every non-zero exit; and when the process completes first the result is its
combined output and its own error, which is never the timeout error. -/
theorem timeout_race (t : String) (w : World) (st s : State) (lang code : String)
    (cfg : LanguageConfig) (c : Cmd)
    (hcfg : (NewCodeExecutor t).languages.lookup lang = some cfg)
    (hreach : runEntry (NewCodeExecutor t) w st lang code cfg = some s)
    (hc : runCommand (NewCodeExecutor t) w lang code cfg = some c) :
    (doneFirst (w.proc c s.fs) cfg.Timeout w.tie = false →
      (run w s lang (filePathOf (NewCodeExecutor t) w lang code cfg)
        (runArg (NewCodeExecutor t) w lang code cfg) (execDirOf (NewCodeExecutor t) w) cfg).1 =
        .ret ("", some (timeoutError cfg)) ∧
      (Execute (NewCodeExecutor t) w st lang code).1 = .ret ("", some (timeoutError cfg))) ∧
    (timeoutError cfg).Error = "execution timeout after " ++ durationString cfg.Timeout ∧
    (durationString cfg.Timeout = "10s" ∨ durationString cfg.Timeout = "15s") ∧
    (∀ n, timeoutError cfg ≠ .exit n ∧ (timeoutError cfg).Error ≠ (GoError.exit n).Error) ∧
    (doneFirst (w.proc c s.fs) cfg.Timeout w.tie = true →
      (run w s lang (filePathOf (NewCodeExecutor t) w lang code cfg)
        (runArg (NewCodeExecutor t) w lang code cfg) (execDirOf (NewCodeExecutor t) w) cfg).1 =
        .ret ((w.proc c s.fs).output, (w.proc c s.fs).status.err) ∧
      (Execute (NewCodeExecutor t) w st lang code).1 =
        .ret ((w.proc c s.fs).output, (w.proc c s.fs).status.err) ∧
      (w.proc c s.fs).status.err ≠ some (timeoutError cfg)) := by
  have hE := Execute_of_runEntry (NewCodeExecutor t) w st s lang code cfg hcfg hreach
  have hrun := run_of_runCommand (NewCodeExecutor t) w s lang code cfg c hc
  refine ⟨?_, rfl, registry_timeout t lang cfg hcfg, ?_, ?_⟩
  · intro hd
    rw [hE, hrun]
    simp [hd]
  · intro n
    exact ⟨by simp [timeoutError], timeout_text_ne_exit cfg n⟩
  · intro hd
    rw [hE, hrun]
    simp only [hd, if_true]
    exact ⟨trivial, trivial, status_err_ne_timeout _ cfg⟩

/-! ## Every way `Execute` returns -/

theorem registry_runCommand (t : String) (w : World) (lang code : String) (cfg : LanguageConfig)
    (hcfg : (NewCodeExecutor t).languages.lookup lang = some cfg) :
    ∃ c, runCommand (NewCodeExecutor t) w lang code cfg = some c := by
  rcases lookup_cases t lang cfg hcfg with ⟨rfl, rfl⟩ | ⟨rfl, rfl⟩ | ⟨rfl, rfl⟩ | ⟨rfl, rfl⟩ |
    ⟨rfl, rfl⟩ <;> simp [runCommand, runCmd, commandAt, index]

theorem registry_compiled (t lang : String) (cfg : LanguageConfig)
    (hcfg : (NewCodeExecutor t).languages.lookup lang = some cfg) :
    0 < cfg.CompileCmd.length ↔ (lang = "java" ∨ lang = "cpp") := by
  rcases lookup_cases t lang cfg hcfg with ⟨rfl, rfl⟩ | ⟨rfl, rfl⟩ | ⟨rfl, rfl⟩ | ⟨rfl, rfl⟩ |
    ⟨rfl, rfl⟩ <;> simp

theorem registry_compileCommand (t : String) (w : World) (lang code : String)
    (cfg : LanguageConfig)
    (hcfg : (NewCodeExecutor t).languages.lookup lang = some cfg)
    (hlen : 0 < cfg.CompileCmd.length) :
    ∃ c, compileCommand (NewCodeExecutor t) w lang code cfg = some c := by
  rcases lookup_cases t lang cfg hcfg with ⟨rfl, rfl⟩ | ⟨rfl, rfl⟩ | ⟨rfl, rfl⟩ | ⟨rfl, rfl⟩ |
    ⟨rfl, rfl⟩
  · simp at hlen
  · simp at hlen
  · simp [compileCommand, compileCmd, commandAt, index]
  · simp [compileCommand, compileCmd, commandAt, index]
  · simp at hlen

theorem Execute_run_result (ce : CodeExecutor) (w : World) (st s : State) (lang code : String)
    (cfg : LanguageConfig) (c : Cmd) (hcfg : ce.languages.lookup lang = some cfg)
    (hreach : runEntry ce w st lang code cfg = some s)
    (hc : runCommand ce w lang code cfg = some c) :
    Execute ce w st lang code =
      (if doneFirst (w.proc c s.fs) cfg.Timeout w.tie then
          .ret ((w.proc c s.fs).output, (w.proc c s.fs).status.err)
        else .ret ("", some (timeoutError cfg)),
       RemoveAll w (afterCmd w s c) (execDirOf ce w)) := by
  rw [Execute_of_runEntry ce w st s lang code cfg hcfg hreach,
    run_of_runCommand ce w s lang code cfg c hc]

/-- The ways in which `Execute` returns for a language of the registry. -/
theorem Execute_ret_cases (t : String) (w : World) (st : State) (lang code : String)
    (cfg : LanguageConfig) (out : String) (err : Option GoError)
    (hcfg : (NewCodeExecutor t).languages.lookup lang = some cfg)
    (h : (Execute (NewCodeExecutor t) w st lang code).1 = .ret (out, err)) :
    (out = "" ∧ ∃ x, w.mkdirErr (execDirOf (NewCodeExecutor t) w) = some x ∧
      err = some (.errorf ("failed to create execution directory: " ++ x))) ∨
    (out = "" ∧ ∃ x, w.writeErr (filePathOf (NewCodeExecutor t) w lang code cfg) = some x ∧
      err = some (.errorf ("failed to write code file: " ++ x))) ∨
    (∃ c e, 0 < cfg.CompileCmd.length ∧
      compileCommand (NewCodeExecutor t) w lang code cfg = some c ∧
      (w.proc c (stagedState (NewCodeExecutor t) w st lang code cfg).fs).status.err = some e ∧
      out = "Compilation Error:\n" ++
        (w.proc c (stagedState (NewCodeExecutor t) w st lang code cfg).fs).output ∧
      err = some e) ∨
    (∃ s c, runEntry (NewCodeExecutor t) w st lang code cfg = some s ∧
      runCommand (NewCodeExecutor t) w lang code cfg = some c ∧
      doneFirst (w.proc c s.fs) cfg.Timeout w.tie = true ∧
      out = (w.proc c s.fs).output ∧ err = (w.proc c s.fs).status.err) ∨
    (∃ s c, runEntry (NewCodeExecutor t) w st lang code cfg = some s ∧
      runCommand (NewCodeExecutor t) w lang code cfg = some c ∧
      doneFirst (w.proc c s.fs) cfg.Timeout w.tie = false ∧
      out = "" ∧ err = some (timeoutError cfg)) := by
  have hrunpart : ∀ s, runEntry (NewCodeExecutor t) w st lang code cfg = some s →
      (∃ s c, runEntry (NewCodeExecutor t) w st lang code cfg = some s ∧
        runCommand (NewCodeExecutor t) w lang code cfg = some c ∧
        doneFirst (w.proc c s.fs) cfg.Timeout w.tie = true ∧
        out = (w.proc c s.fs).output ∧ err = (w.proc c s.fs).status.err) ∨
      (∃ s c, runEntry (NewCodeExecutor t) w st lang code cfg = some s ∧
        runCommand (NewCodeExecutor t) w lang code cfg = some c ∧
        doneFirst (w.proc c s.fs) cfg.Timeout w.tie = false ∧
        out = "" ∧ err = some (timeoutError cfg)) := by
    intro s hs
    obtain ⟨c, hc⟩ := registry_runCommand t w lang code cfg hcfg
    rw [Execute_run_result _ w st s lang code cfg c hcfg hs hc] at h
    cases hd : doneFirst (w.proc c s.fs) cfg.Timeout w.tie with
    | true =>
      simp only [hd, if_true, Result.ret.injEq, Prod.mk.injEq] at h
      exact Or.inl ⟨s, c, hs, hc, hd, h.1.symm, h.2.symm⟩
    | false =>
      simp only [hd, Bool.false_eq_true, if_false, Result.ret.injEq, Prod.mk.injEq] at h
      exact Or.inr ⟨s, c, hs, hc, hd, h.1.symm, h.2.symm⟩
  cases hmk : w.mkdirErr (execDirOf (NewCodeExecutor t) w) with
  | some x =>
    rw [Execute_mkdir_fail _ w st lang code cfg x hcfg hmk] at h
    simp only [Result.ret.injEq, Prod.mk.injEq] at h
    exact Or.inl ⟨h.1.symm, x, rfl, h.2.symm⟩
  | none =>
    cases hwr : w.writeErr (filePathOf (NewCodeExecutor t) w lang code cfg) with
    | some x =>
      rw [Execute_write_fail _ w st lang code cfg x hcfg hmk hwr] at h
      simp only [Result.ret.injEq, Prod.mk.injEq] at h
      exact Or.inr (Or.inl ⟨h.1.symm, x, rfl, h.2.symm⟩)
    | none =>
      by_cases hlen : 0 < cfg.CompileCmd.length
      · obtain ⟨c, hc⟩ := registry_compileCommand t w lang code cfg hcfg hlen
        cases hdone : (w.proc c (stagedState (NewCodeExecutor t) w st lang code cfg).fs).doneAt with
        | none =>
          rw [Execute_compile_hang _ w st lang code cfg c hcfg hmk hwr hlen hc hdone] at h
          simp at h
        | some d =>
          cases herr :
            (w.proc c (stagedState (NewCodeExecutor t) w st lang code cfg).fs).status.err with
          | some e =>
            rw [Execute_compile_fail _ w st lang code cfg c e d hcfg hmk hwr hlen hc hdone
              herr] at h
            simp only [Result.ret.injEq, Prod.mk.injEq] at h
            exact Or.inr (Or.inr (Or.inl ⟨c, e, hlen, hc, herr, h.1.symm, h.2.symm⟩))
          | none =>
            exact Or.inr (Or.inr (Or.inr (hrunpart _
              (runEntry_compiled _ w st lang code cfg c d hmk hwr hlen hc hdone herr))))
      · exact Or.inr (Or.inr (Or.inr (hrunpart _
          (runEntry_interpreted _ w st lang code cfg hmk hwr hlen))))

/-- A call of `Execute` for a language of the registry returns, unless its
compiler never finishes. -/
theorem Execute_returns (t : String) (w : World) (st : State) (lang code : String)
    (cfg : LanguageConfig)
    (hcfg : (NewCodeExecutor t).languages.lookup lang = some cfg)
    (hcomp : ∀ c, compileCommand (NewCodeExecutor t) w lang code cfg = some c →
      (w.proc c (stagedState (NewCodeExecutor t) w st lang code cfg).fs).doneAt ≠ none) :
    ∃ v, (Execute (NewCodeExecutor t) w st lang code).1 = .ret v := by
  have hrunpart : ∀ s, runEntry (NewCodeExecutor t) w st lang code cfg = some s →
      ∃ v, (Execute (NewCodeExecutor t) w st lang code).1 = .ret v := by
    intro s hs
    obtain ⟨c, hc⟩ := registry_runCommand t w lang code cfg hcfg
    rw [Execute_run_result _ w st s lang code cfg c hcfg hs hc]
    dsimp only
    split
    · exact ⟨_, rfl⟩
    · exact ⟨_, rfl⟩
  cases hmk : w.mkdirErr (execDirOf (NewCodeExecutor t) w) with
  | some x =>
    rw [Execute_mkdir_fail _ w st lang code cfg x hcfg hmk]
    exact ⟨_, rfl⟩
  | none =>
    cases hwr : w.writeErr (filePathOf (NewCodeExecutor t) w lang code cfg) with
    | some x =>
      rw [Execute_write_fail _ w st lang code cfg x hcfg hmk hwr]
      exact ⟨_, rfl⟩
    | none =>
      by_cases hlen : 0 < cfg.CompileCmd.length
      · obtain ⟨c, hc⟩ := registry_compileCommand t w lang code cfg hcfg hlen
        cases hdone : (w.proc c (stagedState (NewCodeExecutor t) w st lang code cfg).fs).doneAt with
        | none => exact absurd hdone (hcomp c hc)
        | some d =>
          cases herr :
            (w.proc c (stagedState (NewCodeExecutor t) w st lang code cfg).fs).status.err with
          | some e =>
            rw [Execute_compile_fail _ w st lang code cfg c e d hcfg hmk hwr hlen hc hdone herr]
            exact ⟨_, rfl⟩
          | none =>
            exact hrunpart _
              (runEntry_compiled _ w st lang code cfg c d hmk hwr hlen hc hdone herr)
      · exact hrunpart _ (runEntry_interpreted _ w st lang code cfg hmk hwr hlen)

/-! ## Compile failures -/

/-- Claim C3, as the code has it: for java and cpp, when the compiler `c`
fails with combined output `D`, `Execute` returns "Compilation Error:\n" ++ D
with the compiler's error, and its log is: directory made, file written, the
compiler, directory removed, so the Run Stage is not entered.  Conversely
`Execute` adds that framing only there: every other returned output is empty
or is the combined output of the Run Stage command, verbatim. -/
theorem compile_failure_framing (t : String) (w : World) (st : State) (lang code : String)
    (cfg : LanguageConfig)
    (hcfg : (NewCodeExecutor t).languages.lookup lang = some cfg) :
    (∀ c d e, (lang = "java" ∨ lang = "cpp") →
      w.mkdirErr (execDirOf (NewCodeExecutor t) w) = none →
      w.writeErr (filePathOf (NewCodeExecutor t) w lang code cfg) = none →
      compileCommand (NewCodeExecutor t) w lang code cfg = some c →
      (w.proc c (stagedState (NewCodeExecutor t) w st lang code cfg).fs).doneAt = some d →
      (w.proc c (stagedState (NewCodeExecutor t) w st lang code cfg).fs).status.err = some e →
      (Execute (NewCodeExecutor t) w st lang code).1 =
        .ret ("Compilation Error:\n" ++
          (w.proc c (stagedState (NewCodeExecutor t) w st lang code cfg).fs).output, some e) ∧
      (Execute (NewCodeExecutor t) w st lang code).2.log =
        st.log ++ [.mkdirAll (execDirOf (NewCodeExecutor t) w),
          .writeFile (filePathOf (NewCodeExecutor t) w lang code cfg), .exec c,
          .removeAll (execDirOf (NewCodeExecutor t) w)]) ∧
    (∀ out err, (Execute (NewCodeExecutor t) w st lang code).1 = .ret (out, err) →
      (∃ c e, (lang = "java" ∨ lang = "cpp") ∧
        compileCommand (NewCodeExecutor t) w lang code cfg = some c ∧
        (w.proc c (stagedState (NewCodeExecutor t) w st lang code cfg).fs).status.err = some e ∧
        out = "Compilation Error:\n" ++
          (w.proc c (stagedState (NewCodeExecutor t) w st lang code cfg).fs).output ∧
        err = some e) ∨
      out = "" ∨
      (∃ s c, runEntry (NewCodeExecutor t) w st lang code cfg = some s ∧
        runCommand (NewCodeExecutor t) w lang code cfg = some c ∧
        out = (w.proc c s.fs).output)) := by
  constructor
  · intro c d e hl hmk hwr hc hdone herr
    have hlen := (registry_compiled t lang cfg hcfg).mpr hl
    rw [Execute_compile_fail _ w st lang code cfg c e d hcfg hmk hwr hlen hc hdone herr]
    refine ⟨rfl, ?_⟩
    simp [RemoveAll_log, afterCmd, stagedState, mkdirState]
  · intro out err h
    rcases Execute_ret_cases t w st lang code cfg out err hcfg h with
      ⟨h1, _⟩ | ⟨h1, _⟩ | ⟨c, e, hlen, hc, herr, ho, he⟩ | ⟨s, c, hs, hc, _, ho, _⟩ |
      ⟨s, c, _, _, _, ho, _⟩
    · exact Or.inr (Or.inl h1)
    · exact Or.inr (Or.inl h1)
    · exact Or.inl ⟨c, e, (registry_compiled t lang cfg hcfg).mp hlen, hc, herr, ho, he⟩
    · exact Or.inr (Or.inr ⟨s, c, hs, hc, ho⟩)
    · exact Or.inr (Or.inl ho)

/-- Witness of `compile_failure_framing`: a java submission whose compiler
exits with status 1 after printing a diagnostic. -/
theorem compile_failure_framing_witness :
    (Execute (NewCodeExecutor "/tmp") (sampleWorld "Main.java:1: error\n" (.exited 1) (some 5))
        sampleState "java" "public class Main \x7b").1 =
      .ret ("Compilation Error:\n" ++ "Main.java:1: error\n", some (.exit 1)) ∧
    (Execute (NewCodeExecutor "/tmp") (sampleWorld "Main.java:1: error\n" (.exited 1) (some 5))
        sampleState "java" "public class Main \x7b").2.log =
      [.mkdirAll sampleDir, .writeFile (sampleDir.join "Main.java"),
        .exec ⟨"javac", ["/tmp/compilex/1700000000000000000/Main.java"],
          "/tmp/compilex/1700000000000000000"⟩,
        .removeAll sampleDir] :=
  (compile_failure_framing "/tmp" (sampleWorld "Main.java:1: error\n" (.exited 1) (some 5))
      sampleState "java" "public class Main \x7b" javaConfig (by decide)).1
    ⟨"javac", ["/tmp/compilex/1700000000000000000/Main.java"],
      "/tmp/compilex/1700000000000000000"⟩ 5 (.exit 1) (Or.inl rfl) rfl rfl (by decide) rfl rfl

/-- Counterexample to claim C3 as stated: a python program, which has no
compile step, prints the compiler framing itself; `Execute` returns that
output without an error, and the only command in its log is the interpreter. -/
theorem framing_without_compile :
    (Execute (NewCodeExecutor "/tmp")
        (sampleWorld "Compilation Error:\nboom\n" (.exited 0) (some 5)) sampleState "python"
        "print(\x27Compilation Error:\\nboom\x27)").1 =
      .ret ("Compilation Error:\n" ++ "boom\n", none) ∧
    (NewCodeExecutor "/tmp").languages.lookup "python" = some pythonConfig ∧
    pythonConfig.CompileCmd = [] ∧
    (Execute (NewCodeExecutor "/tmp")
        (sampleWorld "Compilation Error:\nboom\n" (.exited 0) (some 5)) sampleState "python"
        "print(\x27Compilation Error:\\nboom\x27)").2.log =
      [.mkdirAll sampleDir, .writeFile (sampleDir.join "main.py"),
        .exec ⟨"python3", ["/tmp/compilex/1700000000000000000/main.py"],
          "/tmp/compilex/1700000000000000000"⟩,
        .removeAll sampleDir] := by
  decide

/-! ## The handler -/

theorem handler_of_Execute_err (ce : CodeExecutor) (w : World) (st s2 : State)
    (req : ExecuteRequest) (out : String) (e : GoError)
    (hl : req.Language ≠ "") (hco : req.Code ≠ "")
    (h : Execute ce w st req.Language req.Code = (.ret (out, some e), s2)) :
    executeHandler ce w st "POST" (some req) =
      (.ret { status := 422, text := "", json := some { Output := out, Error := e.Error } },
        s2) := by
  unfold executeHandler
  simp only [ne_eq, not_true_eq_false, if_false, hl, hco, or_self, h]
  by_cases ho : out = "" <;> simp [ho]

theorem handler_of_Execute_ok (ce : CodeExecutor) (w : World) (st s2 : State)
    (req : ExecuteRequest) (out : String)
    (hl : req.Language ≠ "") (hco : req.Code ≠ "")
    (h : Execute ce w st req.Language req.Code = (.ret (out, none), s2)) :
    executeHandler ce w st "POST" (some req) =
      (.ret { status := 200, text := "", json := some { Output := out, Error := "" } }, s2) := by
  unfold executeHandler
  simp only [ne_eq, not_true_eq_false, if_false, hl, hco, or_self, h]

/-- Claim C7, as the code has it: for a request with non-empty language and
code in a supported language whose program is staged, built and launched and
exits with status `n` before the timeout, the handler answers 200 with the
output when `n` is zero, and 422 with the output and the error text
"exit status n" when `n` is not zero. -/
theorem handler_exit_status (t : String) (w : World) (st s : State) (req : ExecuteRequest)
    (cfg : LanguageConfig) (c : Cmd) (n : Nat)
    (hl : req.Language ≠ "") (hco : req.Code ≠ "")
    (hcfg : (NewCodeExecutor t).languages.lookup req.Language = some cfg)
    (hreach : runEntry (NewCodeExecutor t) w st req.Language req.Code cfg = some s)
    (hc : runCommand (NewCodeExecutor t) w req.Language req.Code cfg = some c)
    (hdone : doneFirst (w.proc c s.fs) cfg.Timeout w.tie = true)
    (hstat : (w.proc c s.fs).status = .exited n) :
    (executeHandler (NewCodeExecutor t) w st "POST" (some req)).1 =
      .ret { status := if n = 0 then 200 else 422, text := "",
             json := some { Output := (w.proc c s.fs).output,
                            Error := if n = 0 then "" else "exit status " ++ toString n } } := by
  have hE := Execute_run_result _ w st s req.Language req.Code cfg c hcfg hreach hc
  simp only [hdone, if_true, hstat] at hE
  cases n with
  | zero =>
    rw [handler_of_Execute_ok _ w st _ req _ hl hco hE]
    simp
  | succ m =>
    rw [handler_of_Execute_err _ w st _ req _ _ hl hco hE]
    simp [GoError.Error]

/-- Witness of `handler_exit_status`: a python program that prints a line and
exits with status 1 is answered with 422. -/
theorem handler_exit_status_witness :
    (executeHandler (NewCodeExecutor "/tmp") (sampleWorld "bye\n" (.exited 1) (some 5))
        sampleState "POST" (some ⟨"python", "import sys; print(\x27bye\x27); sys.exit(1)"⟩)).1 =
      .ret { status := if 1 = 0 then 200 else 422, text := "",
             json := some { Output := "bye\n",
                            Error := if 1 = 0 then "" else "exit status " ++ toString 1 } } :=
  handler_exit_status "/tmp" (sampleWorld "bye\n" (.exited 1) (some 5)) sampleState
    (stagedState (NewCodeExecutor "/tmp") (sampleWorld "bye\n" (.exited 1) (some 5)) sampleState
      "python" "import sys; print(\x27bye\x27); sys.exit(1)" pythonConfig)
    ⟨"python", "import sys; print(\x27bye\x27); sys.exit(1)"⟩ pythonConfig
    ⟨"python3", ["/tmp/compilex/1700000000000000000/main.py"],
      "/tmp/compilex/1700000000000000000"⟩ 1
    (by decide) (by decide) (by decide) (by decide) (by decide) (by decide) rfl

/-- Counterexample to claim C7 as stated: the program of this request is
staged and launched and exits with status 1 before the timeout, and the
handler answers 422, while the same request answered by a program that exits
with status 0 gets 200. -/
theorem nonzero_exit_not_200 :
    (runEntry (NewCodeExecutor "/tmp") (sampleWorld "" (.exited 1) (some 5)) sampleState
        "python" "import sys; sys.exit(1)" pythonConfig).isSome = true ∧
    doneFirst ((sampleWorld "" (.exited 1) (some 5)).proc
        ⟨"python3", ["/tmp/compilex/1700000000000000000/main.py"],
          "/tmp/compilex/1700000000000000000"⟩ sampleState.fs) pythonConfig.Timeout false = true ∧
    (executeHandler (NewCodeExecutor "/tmp") (sampleWorld "" (.exited 1) (some 5)) sampleState
        "POST" (some ⟨"python", "import sys; sys.exit(1)"⟩)).1 =
      .ret { status := 422, text := "", json := some { Output := "", Error := "exit status 1" } } ∧
    (executeHandler (NewCodeExecutor "/tmp") (sampleWorld "" (.exited 0) (some 5)) sampleState
        "POST" (some ⟨"python", "import sys; sys.exit(1)"⟩)).1 =
      .ret { status := 200, text := "", json := some { Output := "", Error := "" } } := by
  decide

theorem append_ne_empty (a b : String) (ha : a ≠ "") : a ++ b ≠ "" := by
  intro h
  apply ha
  have h2 := congrArg String.data h
  rw [String.data_append] at h2
  have h3 : a.data = [] := (List.append_eq_nil.mp h2).1
  exact String.ext h3

theorem status_err_text (p : ProcStatus) (e : GoError) (h : p.err = some e)
    (hsys : ∀ text, p = .failed text → text ≠ "") : e.Error ≠ "" := by
  cases p with
  | exited n =>
    cases n with
    | zero => simp [ProcStatus.err] at h
    | succ m =>
      simp only [ProcStatus.err, Option.some.injEq] at h
      subst h
      exact append_ne_empty _ _ (by decide)
  | failed x =>
    simp only [ProcStatus.err, Option.some.injEq] at h
    subst h
    exact hsys x rfl

/-- Claim C8, as the code has it: when the engine fails on a request with
non-empty language and code, the handler answers 422 with the engine's output
and the error text, which is not empty (the error texts of the operating
system being non-empty).  The output field is populated only for a compile
failure or for a Run Stage failure of a program that printed something; and
whenever the Run Stage command completes with an error, the output field is
exactly what the program printed. -/
theorem failure_response (t : String) (w : World) (st s2 : State) (req : ExecuteRequest)
    (out : String) (e : GoError)
    (hl : req.Language ≠ "") (hco : req.Code ≠ "")
    (hsys : ∀ c fs text, (w.proc c fs).status = .failed text → text ≠ "")
    (h : Execute (NewCodeExecutor t) w st req.Language req.Code = (.ret (out, some e), s2)) :
    executeHandler (NewCodeExecutor t) w st "POST" (some req) =
      (.ret { status := 422, text := "", json := some { Output := out, Error := e.Error } },
        s2) ∧
    e.Error ≠ "" ∧
    (out ≠ "" → ∃ cfg, (NewCodeExecutor t).languages.lookup req.Language = some cfg ∧
      ((∃ c, (req.Language = "java" ∨ req.Language = "cpp") ∧
          compileCommand (NewCodeExecutor t) w req.Language req.Code cfg = some c ∧
          (w.proc c (stagedState (NewCodeExecutor t) w st req.Language req.Code cfg).fs).status.err
            = some e ∧
          out = "Compilation Error:\n" ++
            (w.proc c (stagedState (NewCodeExecutor t) w st req.Language req.Code cfg).fs).output) ∨
       (∃ s c, runEntry (NewCodeExecutor t) w st req.Language req.Code cfg = some s ∧
          runCommand (NewCodeExecutor t) w req.Language req.Code cfg = some c ∧
          doneFirst (w.proc c s.fs) cfg.Timeout w.tie = true ∧
          (w.proc c s.fs).status.err = some e ∧ out = (w.proc c s.fs).output))) ∧
    (∀ cfg s c, (NewCodeExecutor t).languages.lookup req.Language = some cfg →
      runEntry (NewCodeExecutor t) w st req.Language req.Code cfg = some s →
      runCommand (NewCodeExecutor t) w req.Language req.Code cfg = some c →
      doneFirst (w.proc c s.fs) cfg.Timeout w.tie = true →
      (w.proc c s.fs).status.err = some e ∧ out = (w.proc c s.fs).output) := by
  refine ⟨handler_of_Execute_err _ w st s2 req out e hl hco h, ?_, ?_, ?_⟩
  · cases hcfg : (NewCodeExecutor t).languages.lookup req.Language with
    | none =>
      simp only [Execute, hcfg, Prod.mk.injEq, Result.ret.injEq, Option.some.injEq] at h
      rw [← h.1.2]
      exact append_ne_empty _ _ (by decide)
    | some cfg =>
      have h1 : (Execute (NewCodeExecutor t) w st req.Language req.Code).1 =
          .ret (out, some e) := by rw [h]
      rcases Execute_ret_cases t w st _ _ cfg out _ hcfg h1 with
        ⟨_, x, _, he⟩ | ⟨_, x, _, he⟩ | ⟨c, e2, _, _, herr, _, he⟩ | ⟨s, c, _, _, _, _, he⟩ |
        ⟨s, c, _, _, _, _, he⟩
      · simp only [Option.some.injEq] at he
        rw [he]; exact append_ne_empty _ _ (by decide)
      · simp only [Option.some.injEq] at he
        rw [he]; exact append_ne_empty _ _ (by decide)
      · simp only [Option.some.injEq] at he
        subst he
        exact status_err_text _ _ herr (fun text ht => hsys _ _ text ht)
      · exact status_err_text _ _ he.symm (fun text ht => hsys _ _ text ht)
      · simp only [Option.some.injEq] at he
        rw [he]; exact append_ne_empty _ _ (by decide)
  · intro hne
    cases hcfg : (NewCodeExecutor t).languages.lookup req.Language with
    | none =>
      simp only [Execute, hcfg, Prod.mk.injEq, Result.ret.injEq, Option.some.injEq] at h
      exact absurd h.1.1.symm hne
    | some cfg =>
      have h1 : (Execute (NewCodeExecutor t) w st req.Language req.Code).1 =
          .ret (out, some e) := by rw [h]
      refine ⟨cfg, rfl, ?_⟩
      rcases Execute_ret_cases t w st _ _ cfg out _ hcfg h1 with
        ⟨ho, _⟩ | ⟨ho, _⟩ | ⟨c, e2, hlen, hc, herr, ho, he⟩ | ⟨s, c, hs, hc, hd, ho, he⟩ |
        ⟨s, c, _, _, _, ho, _⟩
      · exact absurd ho hne
      · exact absurd ho hne
      · simp only [Option.some.injEq] at he
        subst he
        exact Or.inl ⟨c, (registry_compiled t _ cfg hcfg).mp hlen, hc, herr, ho⟩
      · exact Or.inr ⟨s, c, hs, hc, hd, he.symm, ho⟩
      · exact absurd ho hne
  · intro cfg s c hcfg hs hc hd
    have hE := Execute_run_result _ w st s req.Language req.Code cfg c hcfg hs hc
    rw [h] at hE
    simp only [hd, if_true, Prod.mk.injEq, Result.ret.injEq] at hE
    exact ⟨hE.1.2.symm, hE.1.1⟩

/-- Witness of `failure_response`: a ruby program prints a line and exits with
status 3. -/
theorem failure_response_witness :
    executeHandler (NewCodeExecutor "/tmp") (sampleWorld "half\n" (.exited 3) (some 7))
        sampleState "POST" (some ⟨"ruby", "puts \x27half\x27; exit 3"⟩) =
      (.ret { status := 422, text := "",
              json := some { Output := "half\n", Error := (GoError.exit 3).Error } },
        (Execute (NewCodeExecutor "/tmp") (sampleWorld "half\n" (.exited 3) (some 7))
          sampleState "ruby" "puts \x27half\x27; exit 3").2) ∧
    (GoError.exit 3).Error ≠ "" :=
  have h := failure_response "/tmp" (sampleWorld "half\n" (.exited 3) (some 7)) sampleState
    (Execute (NewCodeExecutor "/tmp") (sampleWorld "half\n" (.exited 3) (some 7))
      sampleState "ruby" "puts \x27half\x27; exit 3").2
    ⟨"ruby", "puts \x27half\x27; exit 3"⟩ "half\n" (.exit 3) (by decide) (by decide)
    (fun _ _ _ hx => by simp [sampleWorld] at hx) (by decide)
  ⟨h.1, h.2.1⟩

/-- Counterexample to claim C8 as stated: the Run Stage fails (exit status 2)
after the program printed a line, and the response carries that line in its
output field. -/
theorem run_failure_output_surfaced :
    (runEntry (NewCodeExecutor "/tmp") (sampleWorld "half done\n" (.exited 2) (some 9))
        sampleState "javascript" "console.log(\x27half done\x27); process.exit(2)"
        ⟨".js", [], ["node"], 10 * Second⟩).isSome = true ∧
    (executeHandler (NewCodeExecutor "/tmp") (sampleWorld "half done\n" (.exited 2) (some 9))
        sampleState "POST"
        (some ⟨"javascript", "console.log(\x27half done\x27); process.exit(2)"⟩)).1 =
      .ret { status := 422, text := "",
             json := some { Output := "half done\n", Error := "exit status 2" } } := by
  decide

/-! ## The execution directory -/

theorem digitChar_plain (n : Nat) (h : n < 10) :
    Nat.digitChar n ≠ '/' ∧ Nat.digitChar n ≠ '.' := by
  interval_cases n <;> decide

theorem toDigitsCore_plain (fuel : Nat) : ∀ (n : Nat) (ds : List Char),
    (∀ c ∈ ds, c ≠ '/' ∧ c ≠ '.') →
    ∀ c ∈ Nat.toDigitsCore 10 fuel n ds, c ≠ '/' ∧ c ≠ '.' := by
  induction fuel with
  | zero => intro n ds h c hc; exact h c (by simpa [Nat.toDigitsCore] using hc)
  | succ f ih =>
    intro n ds h c hc
    have hds : ∀ x ∈ Nat.digitChar (n % 10) :: ds, x ≠ '/' ∧ x ≠ '.' := by
      intro x hx
      rcases List.mem_cons.mp hx with rfl | hx
      · exact digitChar_plain _ (Nat.mod_lt _ (by decide))
      · exact h x hx
    simp only [Nat.toDigitsCore] at hc
    split_ifs at hc
    · exact hds c hc
    · exact ih _ _ hds c hc

theorem toDigitsCore_ne_nil (fuel : Nat) : ∀ (n : Nat) (ds : List Char), ds ≠ [] →
    Nat.toDigitsCore 10 fuel n ds ≠ [] := by
  induction fuel with
  | zero => intro n ds h; simpa [Nat.toDigitsCore] using h
  | succ f ih =>
    intro n ds _
    simp only [Nat.toDigitsCore]
    split_ifs
    · simp
    · exact ih _ _ (by simp)

theorem toDigits_plain (n : Nat) :
    Nat.toDigits 10 n ≠ [] ∧ ∀ c ∈ Nat.toDigits 10 n, c ≠ '/' ∧ c ≠ '.' := by
  constructor
  · unfold Nat.toDigits
    simp only [Nat.toDigitsCore]
    split_ifs
    · simp
    · exact toDigitsCore_ne_nil _ _ _ (by simp)
  · exact toDigitsCore_plain _ _ _ (by simp)

theorem toString_int_plain (n : Int) :
    (toString n).data ≠ [] ∧ ∀ c ∈ (toString n).data, c ≠ '/' ∧ c ≠ '.' := by
  cases n with
  | ofNat m =>
    show (Nat.toDigits 10 m).asString.data ≠ [] ∧ _
    exact toDigits_plain m
  | negSucc m =>
    show ("-" ++ (Nat.toDigits 10 (m + 1)).asString).data ≠ [] ∧
      ∀ c ∈ ("-" ++ (Nat.toDigits 10 (m + 1)).asString).data, c ≠ '/' ∧ c ≠ '.'
    rw [String.data_append]
    constructor
    · simp
    · intro c hc
      rcases List.mem_append.mp hc with h | h
      · have : c = '-' := by simpa using h
        subst this
        decide
      · exact (toDigits_plain (m + 1)).2 c h

theorem splitOn_of_not_mem (sep : Char) (l : List Char) (h : sep ∉ l) : splitOn sep l = [l] := by
  induction l with
  | nil => rfl
  | cons c cs ih =>
    have hc : c ≠ sep := fun e => h (by simp [e])
    have hcs : sep ∉ cs := fun e => h (List.mem_cons_of_mem _ e)
    simp only [splitOn, hc, if_false, ih hcs]

theorem join_plain (dir : Path) (elem : String)
    (hne : elem.data ≠ []) (h : ∀ c ∈ elem.data, c ≠ '/' ∧ c ≠ '.') :
    dir.join elem = { rooted := dir.rooted, comps := dir.comps ++ [elem] } := by
  have hsl : '/' ∉ elem.data := fun hm => (h _ hm).1 rfl
  have hdot : '.' ∉ elem.data := fun hm => (h _ hm).2 rfl
  have h1 : elem ≠ "" := fun e => hne (by rw [e])
  have h2 : elem ≠ "." := fun e => hdot (by rw [e]; decide)
  have h3 : elem ≠ ".." := fun e => hdot (by rw [e]; decide)
  simp only [Path.join, String.toList, splitOn_of_not_mem '/' elem.data hsl, List.map_cons,
    List.map_nil, List.foldl_cons, List.foldl_nil, cleanStep, h1, h2, h3, or_self, if_false]

theorem execDirOf_eq (ce : CodeExecutor) (w : World) :
    execDirOf ce w =
      { rooted := ce.tempDir.rooted, comps := ce.tempDir.comps ++ [toString w.now] } :=
  join_plain _ _ (toString_int_plain w.now).1 (toString_int_plain w.now).2

/-! ## Cleanup -/

theorem compile_frame (w : World) (s : State) (lang : String) (fp E : Path)
    (cfg : LanguageConfig) (d : Path)
    (hconf : ∀ c fs, c.Dir = E.render → (d ∈ (w.proc c fs).fs.dirs ↔ d ∈ fs.dirs)) :
    d ∈ (compile w s lang fp E cfg).2.fs.dirs ↔ d ∈ s.fs.dirs := by
  unfold compile
  split
  · rfl
  · rfl
  · dsimp only [CombinedOutput]
    split
    · exact hconf _ _ rfl
    · exact hconf _ _ rfl

theorem run_frame (w : World) (s : State) (lang : String) (fp : Path) (ep : String) (E : Path)
    (cfg : LanguageConfig) (d : Path)
    (hconf : ∀ c fs, c.Dir = E.render → (d ∈ (w.proc c fs).fs.dirs ↔ d ∈ fs.dirs)) :
    d ∈ (run w s lang fp ep E cfg).2.fs.dirs ↔ d ∈ s.fs.dirs := by
  unfold run
  split
  · rfl
  · rfl
  · dsimp only [CombinedOutput]
    split
    · exact hconf _ _ rfl
    · exact hconf _ _ rfl

theorem WriteFile_dirs (w : World) (s : State) (p : Path) (data : String) :
    (WriteFile w s p data).2.fs.dirs = s.fs.dirs := by
  unfold WriteFile
  split <;> rfl

theorem executeBody_frame (w : World) (s : State) (lang code : String) (cfg : LanguageConfig)
    (E d : Path)
    (hconf : ∀ c fs, c.Dir = E.render → (d ∈ (w.proc c fs).fs.dirs ↔ d ∈ fs.dirs)) :
    d ∈ (executeBody w s lang code cfg E).2.fs.dirs ↔ d ∈ s.fs.dirs := by
  have hw := WriteFile_dirs w s (E.join (fileName lang code cfg)) code
  unfold executeBody
  dsimp only
  split
  · rename_i e s1 heq
    rw [heq] at hw
    simp only at hw ⊢
    rw [hw]
  · rename_i s1 heq
    rw [heq] at hw
    simp only at hw
    split
    · have hcf := compile_frame w s1 lang (E.join (fileName lang code cfg)) E cfg d hconf
      split
      · rename_i heq2
        rw [heq2] at hcf
        simp only at hcf ⊢
        rw [hcf, hw]
      · rename_i heq2
        rw [heq2] at hcf
        simp only at hcf
        rw [run_frame w _ lang _ _ E cfg d hconf, hcf, hw]
      · rename_i heq2
        rw [heq2] at hcf
        simp only at hcf ⊢
        rw [hcf, hw]
      · rename_i heq2
        rw [heq2] at hcf
        simp only at hcf ⊢
        rw [hcf, hw]
    · rw [run_frame w _ lang _ _ E cfg d hconf, hw]

theorem mem_mkdirAll (fs : FS) (p d : Path) :
    d ∈ (fs.mkdirAll p).dirs ↔ d ∈ fs.dirs ∨ (d.rooted = p.rooted ∧ d.comps <+: p.comps) := by
  simp only [FS.mkdirAll, List.mem_append, List.mem_filter, List.mem_map, List.mem_inits,
    Bool.not_eq_true']
  constructor
  · rintro (h | ⟨⟨cs, hcs, rfl⟩, _⟩)
    · exact Or.inl h
    · exact Or.inr ⟨rfl, hcs⟩
  · rintro (h | ⟨hr, hc⟩)
    · exact Or.inl h
    · by_cases hd : d ∈ fs.dirs
      · exact Or.inl hd
      · refine Or.inr ⟨⟨d.comps, hc, ?_⟩, by simpa using hd⟩
        cases d
        simp_all

theorem within_iff (dir p : Path) :
    dir.within p = true ↔ dir.rooted = p.rooted ∧ dir.comps <+: p.comps := by
  simp [Path.within, List.isPrefixOf_iff_prefix]

theorem below_parent (T d : Path) (x : String)
    (hb : T.below d = true) (hr : d.rooted = T.rooted) (hp : d.comps <+: T.comps ++ [x]) :
    d = { rooted := T.rooted, comps := T.comps ++ [x] } := by
  simp only [Path.below, Bool.and_eq_true, within_iff, bne_iff_ne, ne_eq] at hb
  obtain ⟨⟨_, hTd⟩, hne⟩ := hb
  have hcomps : d.comps = T.comps ++ [x] := by
    rcases List.prefix_concat_iff.mp (by simpa using hp) with h | h
    · simpa using h
    · exfalso
      apply hne
      have : d.comps = T.comps := List.IsPrefix.eq_of_length h
        (Nat.le_antisymm h.length_le hTd.length_le)
      cases d; cases T
      simp_all
  cases d
  simp_all

theorem Execute_final (ce : CodeExecutor) (w : World) (st : State) (lang code : String)
    (cfg : LanguageConfig) (hcfg : ce.languages.lookup lang = some cfg)
    (hmk : w.mkdirErr (execDirOf ce w) = none)
    (hret : (Execute ce w st lang code).1 ≠ .hang) :
    (Execute ce w st lang code).2 =
      RemoveAll w (executeBody w (mkdirState ce w st) lang code cfg (execDirOf ce w)).2
        (execDirOf ce w) := by
  rw [Execute_staged ce w st lang code cfg hcfg hmk] at hret ⊢
  split
  · rename_i hh
    rw [hh] at hret
    exact absurd hh hret
  · rfl

/-- Claim C2, as the code has it: on every path on which `Execute` returns
after making the execution directory, the last thing it does is call
`os.RemoveAll` on that directory, whose error it does not look at.  When that
removal succeeds, the directory is fresh (nothing at or below it existed
before the call) and the external commands started in it change no directory
outside it, then after the return nothing at or below the execution directory
exists and the directories below the workspace root are the ones that were
there before the call. -/
theorem workspace_removed (t : String) (w : World) (st : State) (lang code : String)
    (cfg : LanguageConfig)
    (hcfg : (NewCodeExecutor t).languages.lookup lang = some cfg)
    (hret : (Execute (NewCodeExecutor t) w st lang code).1 ≠ .hang) :
    (w.mkdirErr (execDirOf (NewCodeExecutor t) w) = none →
      (Execute (NewCodeExecutor t) w st lang code).2.log.getLast? =
        some (.removeAll (execDirOf (NewCodeExecutor t) w))) ∧
    (w.removeErr (execDirOf (NewCodeExecutor t) w) = none →
      (∀ d ∈ st.fs.dirs, (execDirOf (NewCodeExecutor t) w).within d = false) →
      (∀ f ∈ st.fs.files, (execDirOf (NewCodeExecutor t) w).within f.1 = false) →
      (∀ c fs d, c.Dir = (execDirOf (NewCodeExecutor t) w).render →
        (execDirOf (NewCodeExecutor t) w).within d = false →
        (d ∈ (w.proc c fs).fs.dirs ↔ d ∈ fs.dirs)) →
      (∀ d ∈ (Execute (NewCodeExecutor t) w st lang code).2.fs.dirs,
        (execDirOf (NewCodeExecutor t) w).within d = false) ∧
      (∀ f ∈ (Execute (NewCodeExecutor t) w st lang code).2.fs.files,
        (execDirOf (NewCodeExecutor t) w).within f.1 = false) ∧
      (∀ d, (NewCodeExecutor t).tempDir.below d = true →
        (d ∈ (Execute (NewCodeExecutor t) w st lang code).2.fs.dirs ↔ d ∈ st.fs.dirs))) := by
  constructor
  · intro hmk
    rw [Execute_final _ w st lang code cfg hcfg hmk hret, RemoveAll_log]
    simp
  · intro hrm hfreshD hfreshF hconf
    cases hmk : w.mkdirErr (execDirOf (NewCodeExecutor t) w) with
    | some x =>
      rw [Execute_mkdir_fail _ w st lang code cfg x hcfg hmk]
      exact ⟨hfreshD, hfreshF, fun d _ => Iff.rfl⟩
    | none =>
      rw [Execute_final _ w st lang code cfg hcfg hmk hret, RemoveAll_fs _ _ _ hrm]
      refine ⟨?_, ?_, ?_⟩
      · intro d hd
        simp only [FS.removeAll, List.mem_filter, Bool.not_eq_true'] at hd
        exact hd.2
      · intro f hf
        simp only [FS.removeAll, List.mem_filter, Bool.not_eq_true'] at hf
        exact hf.2
      · intro d hb
        simp only [FS.removeAll, List.mem_filter, Bool.not_eq_true']
        constructor
        · rintro ⟨hd, hnw⟩
          rw [executeBody_frame w _ lang code cfg _ d (fun c fs hc => hconf c fs d hc hnw)] at hd
          simp only [mkdirState] at hd
          rcases (mem_mkdirAll _ _ _).mp hd with h | ⟨hr, hp⟩
          · exact h
          · exfalso
            rw [execDirOf_eq] at hr hp hnw
            have := below_parent _ d _ hb hr hp
            rw [this] at hnw
            have hw2 := (within_iff
              ({ rooted := (NewCodeExecutor t).tempDir.rooted,
                 comps := (NewCodeExecutor t).tempDir.comps ++ [toString w.now] } : Path)
              { rooted := (NewCodeExecutor t).tempDir.rooted,
                comps := (NewCodeExecutor t).tempDir.comps ++ [toString w.now] }).mpr
              ⟨rfl, List.prefix_refl _⟩
            rw [hw2] at hnw
            exact absurd hnw (by decide)
        · intro hd
          have hnw := hfreshD d hd
          refine ⟨?_, hnw⟩
          rw [executeBody_frame w _ lang code cfg _ d (fun c fs hc => hconf c fs d hc hnw)]
          simp only [mkdirState]
          exact (mem_mkdirAll _ _ _).mpr (Or.inl hd)

/-- Witness of `workspace_removed`: a cpp submission whose compiler and
program leave a directory and a file in the execution directory, which the
removal then takes away. -/
theorem workspace_removed_witness :
    (Execute (NewCodeExecutor "/tmp") artifactWorld sampleState "cpp"
        "int main() \x7b return 0; \x7d").2.log.getLast? =
      some (.removeAll (execDirOf (NewCodeExecutor "/tmp") artifactWorld)) ∧
    (∀ d ∈ (Execute (NewCodeExecutor "/tmp") artifactWorld sampleState "cpp"
        "int main() \x7b return 0; \x7d").2.fs.dirs,
      (execDirOf (NewCodeExecutor "/tmp") artifactWorld).within d = false) ∧
    (∀ f ∈ (Execute (NewCodeExecutor "/tmp") artifactWorld sampleState "cpp"
        "int main() \x7b return 0; \x7d").2.fs.files,
      (execDirOf (NewCodeExecutor "/tmp") artifactWorld).within f.1 = false) ∧
    (∀ d, (NewCodeExecutor "/tmp").tempDir.below d = true →
      (d ∈ (Execute (NewCodeExecutor "/tmp") artifactWorld sampleState "cpp"
        "int main() \x7b return 0; \x7d").2.fs.dirs ↔ d ∈ sampleState.fs.dirs)) :=
  have h := workspace_removed "/tmp" artifactWorld sampleState "cpp"
    "int main() \x7b return 0; \x7d" cppConfig (by decide) (by decide)
  ⟨h.1 (by decide),
    h.2 (by decide) (by decide) (by decide)
      (fun c fs d _ hd => by
        have e : execDirOf (NewCodeExecutor "/tmp") artifactWorld = sampleDir := by decide
        rw [e] at hd
        have hj : sampleDir.join "obj" =
            ⟨true, ["tmp", "compilex", "1700000000000000000", "obj"]⟩ := by decide
        simp only [artifactWorld, hj, List.mem_append, List.mem_singleton]
        constructor
        · rintro (h | h)
          · exact h
          · subst h
            exact absurd hd (by decide)
        · exact Or.inl)⟩

/-- Counterexample to claim C2 as stated: the cpp submission compiles and
runs, `Execute` returns its output without an error, the removal of the
execution directory fails and its error is discarded, and the directory,
which was not there before the call, is still there below the workspace root
after the return. -/
theorem workspace_left_behind :
    (Execute (NewCodeExecutor "/tmp") stuckWorld sampleState "cpp"
        "int main() \x7b return 0; \x7d").1 = .ret ("ok\n", none) ∧
    (Execute (NewCodeExecutor "/tmp") stuckWorld sampleState "cpp"
        "int main() \x7b return 0; \x7d").2.log.getLast? = some (.removeAll sampleDir) ∧
    execDirOf (NewCodeExecutor "/tmp") stuckWorld = sampleDir ∧
    sampleDir ∉ sampleState.fs.dirs ∧
    sampleDir ∈ (Execute (NewCodeExecutor "/tmp") stuckWorld sampleState "cpp"
        "int main() \x7b return 0; \x7d").2.fs.dirs ∧
    (NewCodeExecutor "/tmp").tempDir.below sampleDir = true := by
  decide

/-! ## The name of the staged file -/

theorem extractFromLines_none (lines : List (List Char))
    (h : ∀ l ∈ lines, HasPrefix (TrimSpace l) "public class ".toList = false) :
    extractFromLines lines = [] := by
  induction lines with
  | nil => rfl
  | cons l rest ih =>
    have hl := h l (List.mem_cons_self _ _)
    simp only [extractFromLines, hl, Bool.false_eq_true, if_false]
    exact ih (fun x hx => h x (List.mem_cons_of_mem _ hx))

/-- Regular names: outside java the staged file is `main`
with the extension of the language, and java code without a line that starts
with "public class " after trimming is staged as `Main.java`. -/
theorem fileName_regular (t lang code : String) (cfg : LanguageConfig)
    (hcfg : (NewCodeExecutor t).languages.lookup lang = some cfg) :
    (lang = "python" → fileName lang code cfg = "main.py") ∧
    (lang = "javascript" → fileName lang code cfg = "main.js") ∧
    (lang = "cpp" → fileName lang code cfg = "main.cpp") ∧
    (lang = "ruby" → fileName lang code cfg = "main.rb") ∧
    (lang = "java" →
      (∀ l ∈ splitOn '\n' code.toList, HasPrefix (TrimSpace l) "public class ".toList = false) →
      fileName lang code cfg = "Main.java") := by
  rcases lookup_cases t lang cfg hcfg with ⟨rfl, rfl⟩ | ⟨rfl, rfl⟩ | ⟨rfl, rfl⟩ | ⟨rfl, rfl⟩ |
    ⟨rfl, rfl⟩
  · exact ⟨fun _ => by simp [fileName], by simp, by simp, by simp, by simp⟩
  · exact ⟨by simp, fun _ => by simp [fileName], by simp, by simp, by simp⟩
  · refine ⟨by simp, by simp, by simp, by simp, ?_⟩
    intro _ h
    have e : extractJavaClassName code = "" := by
      simp only [extractJavaClassName, extractFromLines_none _ h]
    simp only [fileName, e, if_true]
    decide
  · exact ⟨by simp, by simp, fun _ => by simp [fileName], by simp, by simp⟩
  · exact ⟨by simp, by simp, by simp, fun _ => by simp [fileName], by simp⟩

theorem Fields_word (word : List Char) (hne : word ≠ [])
    (hword : ∀ c ∈ word, isSpace c = false) : Fields word = [word] := by
  induction word with
  | nil => exact absurd rfl hne
  | cons c rest ih =>
    have hc : isSpace c = false := hword c (List.mem_cons_self _ _)
    cases rest with
    | nil =>
      rw [Fields.eq_2, Fields.eq_1]
      simp only [hc, List.head?_nil, Option.map_none', Option.getD_none, Bool.false_eq_true,
        if_false, if_true]
    | cons d rest2 =>
      have hd : isSpace d = false := hword d (by simp)
      have ih2 := ih (by simp) (fun x hx => hword x (List.mem_cons_of_mem _ hx))
      rw [Fields.eq_2, ih2]
      simp only [hc, hd, List.head?_cons, Option.map_some', Option.getD_some,
        Bool.false_eq_true, if_false]

theorem TrimSuffix_no_brace (N : List Char) (h : ∀ c ∈ N, c ≠ '\x7b') :
    TrimSuffix N ['\x7b'] = N := by
  have hs : HasSuffix N ['\x7b'] = false := by
    simp only [HasSuffix, List.reverse_cons, List.reverse_nil, List.nil_append]
    cases hrev : N.reverse with
    | nil => rfl
    | cons a l =>
      have ha : a ∈ N := by
        have : a ∈ N.reverse := by rw [hrev]; exact List.mem_cons_self _ _
        simpa using this
      have hne := h a ha
      simp [List.isPrefixOf, hne.symm]
  simp only [TrimSuffix, hs, Bool.false_eq_true, if_false]

/-- Declared names the code handles: when the first line that starts with
"public class " after trimming continues with a name `N` free of white space
and braces, followed by the end of the line, by white space, or by one brace
that the end of the line or white space follows, the staged file is
`N.java`. -/
theorem fileName_declared (code : String) (pre post : List (List Char))
    (line N r : List Char)
    (hsplit : splitOn '\n' code.toList = pre ++ line :: post)
    (hpre : ∀ l ∈ pre, HasPrefix (TrimSpace l) "public class ".toList = false)
    (hline : TrimSpace line = "public class ".toList ++ (N ++ r))
    (hN : N ≠ []) (hNs : ∀ c ∈ N, isSpace c = false ∧ c ≠ '\x7b')
    (hr : r = [] ∨ (∃ sp r2, r = sp :: r2 ∧ isSpace sp = true) ∨ r = ['\x7b'] ∨
      ∃ sp r2, r = '\x7b' :: sp :: r2 ∧ isSpace sp = true) :
    fileName "java" code javaConfig = String.mk N ++ ".java" := by
  have hpc : ∀ rest, Fields ("public class ".toList ++ rest) =
      "public".toList :: "class".toList :: Fields rest := by
    intro rest
    have e : "public class ".toList ++ rest =
        "public".toList ++ ' ' :: ("class".toList ++ ' ' :: rest) := rfl
    rw [e, Fields_word_space _ _ _ (by decide) (by decide) (by decide),
      Fields_word_space _ _ _ (by decide) (by decide) (by decide)]
  have hNb : ∀ c ∈ N ++ ['\x7b'], isSpace c = false := by
    intro c hc
    rcases List.mem_append.mp hc with h | h
    · exact (hNs c h).1
    · have : c = '\x7b' := by simpa using h
      subst this
      decide
  have hthird : ∃ q rest, Fields (N ++ r) = q :: rest ∧ TrimSuffix q ['\x7b'] = N := by
    rcases hr with rfl | ⟨sp, r2, rfl, hsp⟩ | rfl | ⟨sp, r2, rfl, hsp⟩
    · refine ⟨N, [], ?_, TrimSuffix_no_brace N (fun c hc => (hNs c hc).2)⟩
      rw [List.append_nil, Fields_word N hN (fun c hc => (hNs c hc).1)]
    · exact ⟨N, _, Fields_word_space N sp r2 hN (fun c hc => (hNs c hc).1) hsp,
        TrimSuffix_no_brace N (fun c hc => (hNs c hc).2)⟩
    · exact ⟨N ++ ['\x7b'], [], Fields_word _ (by simp) hNb, TrimSuffix_append N ['\x7b']⟩
    · refine ⟨N ++ ['\x7b'], Fields r2, ?_, TrimSuffix_append N ['\x7b']⟩
      have e : N ++ '\x7b' :: sp :: r2 = (N ++ ['\x7b']) ++ sp :: r2 := by simp
      rw [e]
      exact Fields_word_space _ sp r2 (by simp) hNb hsp
  obtain ⟨q, rest, hq, htrim⟩ := hthird
  have hext : ∀ ls : List (List Char),
      (∀ l ∈ ls, HasPrefix (TrimSpace l) "public class ".toList = false) →
      extractFromLines (ls ++ line :: post) = N := by
    intro ls
    induction ls with
    | nil =>
      intro _
      have hp : HasPrefix (TrimSpace line) "public class ".toList = true := by
        rw [hline]
        simp [HasPrefix]
      simp only [List.nil_append, extractFromLines, hp, if_true]
      rw [hline, hpc, hq]
      simp only [List.length_cons, List.get?_cons_succ, List.get?_cons_zero]
      have h3 : 3 ≤ rest.length + 1 + 1 + 1 := by omega
      simp only [h3, if_true]
      exact htrim
    | cons l ls ih =>
      intro h
      have hl := h l (List.mem_cons_self _ _)
      simp only [List.cons_append, extractFromLines, hl, Bool.false_eq_true, if_false]
      exact ih (fun x hx => h x (List.mem_cons_of_mem _ hx))
  have hname : extractJavaClassName code = String.mk N := by
    simp only [extractJavaClassName, hsplit, hext pre hpre]
  have hne : String.mk N ≠ "" := by
    intro h0
    exact hN (congrArg String.data h0)
  simp only [fileName, hname, hne, if_true, if_false, javaConfig]

/-- Claim C5 at its failing input: the class `Solution` is declared with its
brace and body attached, and the staged file is not `Solution.java`; a whole
program on one line fares the same. -/
theorem fileName_brace_attached :
    extractJavaClassName "public class Solution\x7b\x7d" = "Solution\x7b\x7d" ∧
    fileName "java" "public class Solution\x7b\x7d" javaConfig = "Solution\x7b\x7d.java" ∧
    fileName "java" "public class Main\x7bpublic static void main(String[] a)\x7b\x7d\x7d" javaConfig =
      "Main\x7bpublic.java" := by
  decide

/-- Claim C6 at its failing input: the declared name starts with a `..`
component, the staged path is `/tmp/compilex/Escape.java`, outside the
execution directory `/tmp/compilex/1700000000000000000`, the run argument is
`../Escape`, and the file is still there after `Execute` has returned and
removed its directory. -/
theorem staged_file_outside_workspace :
    fileName "java" "public class ../Escape \x7b" javaConfig = "../Escape.java" ∧
    (filePathOf (NewCodeExecutor "/tmp") (sampleWorld "" (.exited 0) (some 1)) "java"
      "public class ../Escape \x7b" javaConfig).render = "/tmp/compilex/Escape.java" ∧
    (execDirOf (NewCodeExecutor "/tmp") (sampleWorld "" (.exited 0) (some 1))).render =
      "/tmp/compilex/1700000000000000000" ∧
    (execDirOf (NewCodeExecutor "/tmp") (sampleWorld "" (.exited 0) (some 1))).within
      (filePathOf (NewCodeExecutor "/tmp") (sampleWorld "" (.exited 0) (some 1)) "java"
        "public class ../Escape \x7b" javaConfig) = false ∧
    runArg (NewCodeExecutor "/tmp") (sampleWorld "" (.exited 0) (some 1)) "java"
      "public class ../Escape \x7b" javaConfig = "../Escape" ∧
    (Execute (NewCodeExecutor "/tmp") (sampleWorld "" (.exited 0) (some 1)) sampleState "java"
      "public class ../Escape \x7b").2.fs.files =
      [(⟨true, ["tmp", "compilex", "Escape.java"]⟩, "public class ../Escape \x7b")] := by
  decide

/-! ## Witnesses -/

/-- Witness of `Execute_unsupported`: the language `rust`. -/
theorem Execute_unsupported_witness :
    Execute (NewCodeExecutor "/tmp") (sampleWorld "" (.exited 0) (some 1)) sampleState "rust"
        "fn main() \x7b\x7d" =
      (.ret ("", some (.errorf ("unsupported language: " ++ "rust"))), sampleState) :=
  Execute_unsupported "/tmp" (sampleWorld "" (.exited 0) (some 1)) sampleState "rust"
    "fn main() \x7b\x7d" (by decide)

/-- Witness of `timeout_race`: a python program that never ends. -/
theorem timeout_race_witness :
    (Execute (NewCodeExecutor "/tmp") (sampleWorld "tick\n" (.exited 0) none) sampleState
        "python" "while True: print(\x27tick\x27)").1 =
      .ret ("", some (timeoutError pythonConfig)) :=
  ((timeout_race "/tmp" (sampleWorld "tick\n" (.exited 0) none) sampleState
      (stagedState (NewCodeExecutor "/tmp") (sampleWorld "tick\n" (.exited 0) none) sampleState
        "python" "while True: print(\x27tick\x27)" pythonConfig)
      "python" "while True: print(\x27tick\x27)" pythonConfig
      ⟨"python3", ["/tmp/compilex/1700000000000000000/main.py"],
        "/tmp/compilex/1700000000000000000"⟩
      (by decide) (by decide) (by decide)).1 (by decide)).2

/-- Witness of `run_resolves`: a cpp submission that compiles. -/
theorem run_resolves_witness :
    ∃ c, runCommand (NewCodeExecutor "/tmp") (sampleWorld "" (.exited 0) (some 1)) "cpp"
        "int main() \x7b\x7d" cppConfig = some c ∧
      c.Path = ((execDirOf (NewCodeExecutor "/tmp")
        (sampleWorld "" (.exited 0) (some 1))).join "main").render ∧
      c.Args = [] := by
  obtain ⟨c, h1, _, _, _, _, _, _, h8⟩ :=
    run_resolves "/tmp" (sampleWorld "" (.exited 0) (some 1)) sampleState
      (afterCmd (sampleWorld "" (.exited 0) (some 1))
        (stagedState (NewCodeExecutor "/tmp") (sampleWorld "" (.exited 0) (some 1)) sampleState
          "cpp" "int main() \x7b\x7d" cppConfig)
        ⟨"g++", ["-o", "/tmp/compilex/1700000000000000000/main",
          "/tmp/compilex/1700000000000000000/main.cpp"], "/tmp/compilex/1700000000000000000"⟩)
      "cpp" "int main() \x7b\x7d" cppConfig (by decide) (by decide)
  exact ⟨c, h1, (h8 rfl).1, (h8 rfl).2.1⟩

/-- Witness of `no_fallback`: the cpp entry. -/
theorem no_fallback_witness :
    (∀ fp E, ∃ c, compileCmd "cpp" fp E cppConfig = .cmd c) ∧
    (∀ w st code text, (Execute (NewCodeExecutor "/tmp") w st "cpp" code).1 ≠ .panic text) :=
  ⟨((no_fallback "/tmp" "cpp" cppConfig (by decide)).1 (by decide)).2.1,
    (no_fallback "/tmp" "cpp" cppConfig (by decide)).2.2.2.2.1⟩

end CompileX
